import Mathlib

/-!
# Shallow embedding of the `placeholder-name-2` simulation core

This file embeds, in Lean, the parts of the repository relevant to the
frozen claims: the data model (`Direction`, `Vec2i`, `Identifier`, items,
inventories, blocks, chunks, worlds), the inventory insertion routines
(`Inventory::add_item` / `try_add_item` from `src/inventory.rs`), the
push/pull capability protocol of the concrete block kinds
(`src/blocks/*.rs`), the coordinate-to-chunk resolution
(`src/world.rs`), the tagged binary serialization framework
(`src/serialization/mod.rs`), and the world (de)serializers.

Modelling conventions:
* machine integers become `Nat`/`Int`; wrapping arithmetic of release
  builds is written with an explicit `% 2^w` where overflow is possible;
* `Instant` timers are omitted: no claim concerns them, and every
  theorem about "state" is phrased over buffer/inventory contents, which
  is what the source stores besides the timer;
* the panicking paths of the source (`panic!`, `expect`, `assert_eq!`)
  are represented by an explicit `panicked` result constructor
  (for serialization) or an `Option` result (for `World::serialize`);
* `Buffer(Vec<u8>, usize)` is embedded twice: once literally as a
  (data, position) structure (`Buffer`, for the claims about
  `try_read_elements` itself), and once as the suffix of unread bytes
  (`ReadState`), on which all deserializers run; a bridging theorem
  shows the two agree, every `Buffer` operation depending only on the
  unread suffix.
-/

namespace PN2

/-! ## Directions and vectors (`src/world.rs`) -/

/-- `Direction`: enum North, East, South, West. -/
inductive Direction where
  | north
  | east
  | south
  | west
deriving DecidableEq, Repr

/-- The `u8` value of a direction (`*self as u8`). -/
def Direction.toU8 : Direction → Nat
  | .north => 0
  | .east => 1
  | .south => 2
  | .west => 3

/-- `impl From<u8> for Direction`: `match value % 4`. -/
def Direction.fromU8 (value : Nat) : Direction :=
  match value % 4 with
  | 0 => .north
  | 1 => .east
  | 2 => .south
  | _ => .west

/-- `impl Add for Direction`: `(self as u8 + rhs as u8).into()`. -/
def Direction.add (a b : Direction) : Direction :=
  Direction.fromU8 (a.toU8 + b.toU8)

/-- `Direction::next(right)`. -/
def Direction.next (d : Direction) (right : Bool) : Direction :=
  match d, right with
  | .north, true => .east
  | .east, true => .south
  | .south, true => .west
  | .west, true => .north
  | .north, false => .west
  | .east, false => .north
  | .south, false => .east
  | .west, false => .south

/-- `Direction::opposite`. -/
def Direction.opposite : Direction → Direction
  | .north => .south
  | .south => .north
  | .west => .east
  | .east => .west

/-- `Vec2i`: integer 2D vector (`i32` coordinates). -/
structure Vec2i where
  x : Int
  y : Int
deriving DecidableEq, Repr

/-- `Vec2i::new`. -/
def Vec2i.new (x y : Int) : Vec2i := ⟨x, y⟩

/-- `Vec2i::add_directional`; note East is `-x` and West `+x` in the source. -/
def Vec2i.addDirectional (v : Vec2i) (direction : Direction) (steps : Int) : Vec2i :=
  match direction with
  | .north => ⟨v.x, v.y - steps⟩
  | .south => ⟨v.x, v.y + steps⟩
  | .east => ⟨v.x - steps, v.y⟩
  | .west => ⟨v.x + steps, v.y⟩

/-- `ChunkBlockMetadata`: absolute position and facing passed to block code. -/
structure ChunkBlockMetadata where
  position : Vec2i
  direction : Direction
deriving DecidableEq, Repr

/-! ## Identifiers and items (`src/identifier.rs`, `src/items.rs`)

`GlobalString` is an interned string; interning deduplicates by content,
so two `GlobalString`s are equal exactly when their contents are equal.
We embed a `GlobalString` as its UTF-8 byte list. -/

/-- Interned string, embedded as its byte content. -/
abbrev GlobalString := List Nat

/-- The byte list of an ASCII Lean string (used for the concrete identifiers). -/
def asciiBytes (s : String) : List Nat := s.data.map Char.toNat

/-- `Identifier`: a (namespace, key) pair of interned strings. -/
structure Identifier where
  major : GlobalString
  minor : GlobalString
deriving DecidableEq, Repr

/-- Shorthand for the `placeholder_name_2` namespaced identifiers. -/
def pnId (minor : String) : Identifier :=
  ⟨asciiBytes "placeholder_name_2", asciiBytes minor⟩

def BLOCK_EMPTY : Identifier := pnId "empty"

def BLOCK_RESOURCE_NODE_BROWN : Identifier := pnId "resource_node_brown"

def BLOCK_STORAGE_CONTAINER : Identifier := pnId "storage_container"

def BLOCK_EXTRACTOR : Identifier := pnId "extractor"

def BLOCK_CONVEYOR : Identifier := pnId "conveyor_mk1"

def BLOCK_CONVEYOR_SPLITTER : Identifier := pnId "conveyor_splitter"

def BLOCK_TUNNEL : Identifier := pnId "tunnel mk 1"

def COAL_IDENTIFIER : Identifier := pnId "coal"

/-- A `Box<dyn Item>` value: identity, `u32` metadata, and the
`metadata_is_stack_size` answer of its kind (`true` for both concrete
kinds, `ItemCoal` and `BlockItem`, via the trait default). -/
structure Item where
  ident : Identifier
  meta : Nat
  stackable : Bool
deriving DecidableEq, Repr

/-- An `ItemCoal` with the given metadata. -/
def coalItem (meta : Nat) : Item := ⟨COAL_IDENTIFIER, meta, true⟩

/-- The registered item templates, in registration order: `register_blocks()`
pushes one `BlockItem(0, block)` per registered block, then
`register_items()` pushes `ItemCoal(1)`. -/
def ITEMS : List Item :=
  [⟨BLOCK_EMPTY, 0, true⟩, ⟨BLOCK_RESOURCE_NODE_BROWN, 0, true⟩,
   ⟨BLOCK_STORAGE_CONTAINER, 0, true⟩, ⟨BLOCK_EXTRACTOR, 0, true⟩,
   ⟨BLOCK_CONVEYOR, 0, true⟩, ⟨BLOCK_CONVEYOR_SPLITTER, 0, true⟩,
   coalItem 1]

/-- `get_item_by_id`: first registered item with the given identifier. -/
def getItemById (id : Identifier) : Option Item :=
  ITEMS.find? (fun item => item.ident = id)

/-! ## Inventory (`src/inventory.rs`) -/

def MAX_ITEMS_PER_SLOT : Nat := 255

/-- `u32` wrapping addition (release-build semantics of `a + b`). -/
def u32add (a b : Nat) : Nat := (a + b) % 4294967296

/-- `u32::wrapping_sub`. -/
def u32sub (a b : Nat) : Nat := (a % 4294967296 + (4294967296 - b % 4294967296)) % 4294967296

/-- `Inventory`: nullable item slots plus the `is_player` flag. -/
structure Inventory where
  items : List (Option Item)
  isPlayer : Bool
deriving DecidableEq, Repr

/-- `Inventory::new(size, is_player)`. -/
def Inventory.new (size : Nat) (isPlayer : Bool) : Inventory :=
  ⟨List.replicate size none, isPlayer⟩

/-- `Inventory::resize` (`resize_with(new_size, || None)`). -/
def Inventory.resize (inv : Inventory) (newSize : Nat) : Inventory :=
  ⟨inv.items.take newSize ++ List.replicate (newSize - inv.items.length) none, inv.isPlayer⟩

/-- `Inventory::get_item(slot)`: out-of-range slots read as `&None`. -/
def Inventory.getItem (inv : Inventory) (slot : Nat) : Option Item :=
  (inv.items.drop slot).headD none

/-- `Inventory::add_item(item, slot)`; the notice-board side effects of
player inventories are pure logging and are dropped. Returns the new
inventory and the returned (`Option<Box<dyn Item>>`) leftover. -/
def Inventory.addItem (inv : Inventory) (item : Item) (slot : Nat) :
    Inventory × Option Item :=
  if slot < inv.items.length then
    match inv.getItem slot with
    | none => (⟨inv.items.set slot (some item), inv.isPlayer⟩, none)
    | some slotItem =>
      if slotItem.ident = item.ident ∧ slotItem.stackable = true then
        if MAX_ITEMS_PER_SLOT ≤ slotItem.meta then (inv, some item)
        else
          let newSz := u32add slotItem.meta item.meta
          if MAX_ITEMS_PER_SLOT < newSz then
            (⟨inv.items.set slot (some { slotItem with meta := MAX_ITEMS_PER_SLOT }), inv.isPlayer⟩,
             some { item with meta := newSz - MAX_ITEMS_PER_SLOT })
          else
            (⟨inv.items.set slot (some { slotItem with meta := newSz }), inv.isPlayer⟩, none)
      else
        (⟨inv.items.set slot (some item), inv.isPlayer⟩, some slotItem)
  else (inv, some item)

/-- The slot loop of `Inventory::try_add_item`: `can_extend` is the
incoming item's `metadata_is_stack_size()`, `ident` its identifier; the
incoming item's metadata mutates across iterations.  After the loop the
source returns `Some(item)` iff `can_extend_amount && item.metadata() > 0`. -/
def tryAddLoop (canExtend : Bool) (ident : Identifier) :
    List (Option Item) → Item → List (Option Item) × Option Item
  | [], item => ([], if canExtend = true ∧ 0 < item.meta then some item else none)
  | none :: rest, item => (some item :: rest, none)
  | some other :: rest, item =>
    if other.ident = ident ∧ canExtend = true then
      if MAX_ITEMS_PER_SLOT ≤ other.meta then
        let r := tryAddLoop canExtend ident rest item
        (some other :: r.1, r.2)
      else
        let newSz := u32add other.meta item.meta
        if MAX_ITEMS_PER_SLOT < newSz then
          let r := tryAddLoop canExtend ident rest { item with meta := newSz - MAX_ITEMS_PER_SLOT }
          (some { other with meta := MAX_ITEMS_PER_SLOT } :: r.1, r.2)
        else
          (some { other with meta := newSz } :: rest, none)
    else
      let r := tryAddLoop canExtend ident rest item
      (some other :: r.1, r.2)

/-- `Inventory::try_add_item`. -/
def Inventory.tryAddItem (inv : Inventory) (item : Item) : Inventory × Option Item :=
  let r := tryAddLoop item.stackable item.ident inv.items item
  (⟨r.1, inv.isPlayer⟩, r.2)

/-- `Inventory::take_item(slot)` (notice-board logging dropped). -/
def Inventory.takeItem (inv : Inventory) (slot : Nat) : Inventory × Option Item :=
  if slot < inv.items.length then
    (⟨inv.items.set slot none, inv.isPlayer⟩, inv.getItem slot)
  else (inv, none)

/-- `Inventory::can_pull`. -/
def Inventory.canPull (inv : Inventory) : Bool :=
  inv.items.any (fun slot => slot.isSome)

/-- The slot loop of `Inventory::can_push` with its `wrapping_sub` count. -/
def canPushLoop (ident : Identifier) : List (Option Item) → Nat → Bool
  | [], _ => false
  | none :: _, _ => true
  | some inner :: rest, countRemaining =>
    if inner.ident = ident then
      if inner.stackable = true then
        let cr := u32sub countRemaining (u32sub MAX_ITEMS_PER_SLOT inner.meta)
        if cr = 0 then true else canPushLoop ident rest cr
      else canPushLoop ident rest countRemaining
    else canPushLoop ident rest countRemaining

/-- `Inventory::can_push(item)`. -/
def Inventory.canPushItem (inv : Inventory) (item : Item) : Bool :=
  canPushLoop item.ident inv.items (if item.stackable then item.meta else 1)

/-- The slot loop of `Inventory::try_pull`. -/
def tryPullLoop : List (Option Item) → Nat → List (Option Item) × Option Item
  | [], _ => ([], none)
  | none :: rest, num =>
    let r := tryPullLoop rest num
    (none :: r.1, r.2)
  | some item :: rest, num =>
    if item.stackable = true ∧ num < item.meta then
      (some { item with meta := item.meta - num } :: rest, some { item with meta := num })
    else
      (none :: rest, some item)

/-- `Inventory::try_pull(num)`. -/
def Inventory.tryPull (inv : Inventory) (num : Nat) : Inventory × Option Item :=
  let r := tryPullLoop inv.items num
  (⟨r.1, inv.isPlayer⟩, r.2)

/-- Units an item counts as: metadata when it is a stack size, else 1
(the counting the source's own notice-board accounting uses). -/
def Item.units (item : Item) : Nat := if item.stackable then item.meta else 1

/-- Units in an optional slot / returned item. -/
def unitsOpt : Option Item → Nat
  | none => 0
  | some item => item.units

/-- Total units held by an inventory. -/
def Inventory.totalUnits (inv : Inventory) : Nat :=
  (inv.items.map unitsOpt).sum

/-! ## Blocks (`src/blocks/mod.rs`, `conveyor.rs`, `extractor.rs`,
`splitter.rs`, `tunnel.rs`)

A `Box<dyn Block>` is one of the concrete kinds.  Per-kind state mirrors
the source tuples minus the `Instant` timer (no claim concerns timers):
`StorageContainer(Inventory)`, `ExtractorBlock(_, Inventory)`,
`ConveyorBlock(_, Inventory, Direction)`,
`ConveyorSplitter(_, Inventory, usize, Option<Direction>)`,
`TunnelBlock(_, Inventory, Direction, TunnelType)`. -/

/-- `TunnelType` (`src/blocks/tunnel.rs`). -/
inductive TunnelType where
  | receiving (vec : Vec2i)
  | pushing (vec : Vec2i)
  | none
deriving DecidableEq, Repr

/-- The state of a `Box<dyn Block>`. -/
inductive BlockState where
  | empty
  | resourceNodeBrown
  | storageContainer (inv : Inventory)
  | extractor (inv : Inventory)
  | conveyor (inv : Inventory) (animDir : Direction)
  | splitter (inv : Inventory) (lastDirection : Nat) (cachedDir : Option Direction)
  | tunnel (inv : Inventory) (animDir : Direction) (ttype : TunnelType)
deriving DecidableEq, Repr

/-- `Block::identifier()` per kind. -/
def BlockState.identifier : BlockState → Identifier
  | .empty => BLOCK_EMPTY
  | .resourceNodeBrown => BLOCK_RESOURCE_NODE_BROWN
  | .storageContainer _ => BLOCK_STORAGE_CONTAINER
  | .extractor _ => BLOCK_EXTRACTOR
  | .conveyor _ _ => BLOCK_CONVEYOR
  | .splitter _ _ _ => BLOCK_CONVEYOR_SPLITTER
  | .tunnel _ _ _ => BLOCK_TUNNEL

/-- The default (registry template) state per kind. -/
def BlockState.defaultOf : BlockState → BlockState
  | .empty => .empty
  | .resourceNodeBrown => .resourceNodeBrown
  | .storageContainer _ => .storageContainer (Inventory.new (5 * 9) false)
  | .extractor _ => .extractor (Inventory.new 1 false)
  | .conveyor _ _ => .conveyor (Inventory.new 1 false) .north
  | .splitter _ _ _ => .splitter (Inventory.new 1 false) 0 none
  | .tunnel _ _ _ => .tunnel (Inventory.new 1 false) .north .none

/-- The registered blocks (`register_blocks()` in `src/blocks/mod.rs`);
`TunnelBlock` is not registered. -/
def BLOCKS : List BlockState :=
  [.empty, .resourceNodeBrown, .storageContainer (Inventory.new (5 * 9) false),
   .extractor (Inventory.new 1 false), .conveyor (Inventory.new 1 false) .north,
   .splitter (Inventory.new 1 false) 0 none]

/-- `get_block_by_id`. -/
def getBlockById (id : Identifier) : Option BlockState :=
  BLOCKS.find? (fun blk => blk.identifier = id)

/-- `Block::init(meta)` per kind (inventory resizing on placement). -/
def BlockState.init : BlockState → BlockState
  | .storageContainer inv => .storageContainer (inv.resize (5 * 9))
  | .extractor inv => .extractor (inv.resize 1)
  | .conveyor inv d => .conveyor (inv.resize 1) d
  | .splitter inv l c => .splitter (inv.resize 1) l c
  | .tunnel inv d t => .tunnel (inv.resize 1) d t
  | st => st

/-- `Block::has_capability_push(side, meta)` per kind. -/
def BlockState.hasCapabilityPush (st : BlockState) (side : Direction)
    (meta : ChunkBlockMetadata) : Bool :=
  match st with
  | .storageContainer _ =>
    decide (side = meta.direction) || decide (side.add .south = meta.direction)
  | .conveyor _ _ => !decide (side = meta.direction)
  | .splitter _ _ _ => decide (side = meta.direction.opposite)
  | .tunnel _ _ t =>
    (match t with | .pushing _ => true | _ => false : Bool) && decide (side = meta.direction.opposite)
  | _ => false

/-- `Block::can_push(side, item, meta)` per kind. -/
def BlockState.canPush (st : BlockState) (side : Direction) (item : Item)
    (meta : ChunkBlockMetadata) : Bool :=
  match st with
  | .storageContainer inv =>
    st.hasCapabilityPush side meta && inv.canPushItem item
  | .conveyor inv _ =>
    (inv.getItem 0).isNone && st.hasCapabilityPush side meta
  | .splitter inv _ _ =>
    (inv.getItem 0).isNone && st.hasCapabilityPush side meta
  | .tunnel inv _ _ =>
    st.hasCapabilityPush side meta && (inv.getItem 0).isNone
  | _ => false

/-- `Block::push(side, item, meta)` per kind.  Returns the new state and
the `Option<Box<dyn Item>>` the call returns; the timer reset of
successful pushes is not part of the state.  Default impl returns
`Some(item)` unchanged; `StorageContainer::push` forwards to
`try_add_item` without consulting `side`. -/
def BlockState.push (st : BlockState) (side : Direction) (item : Item)
    (meta : ChunkBlockMetadata) : BlockState × Option Item :=
  match st with
  | .storageContainer inv =>
    let r := inv.tryAddItem item
    (.storageContainer r.1, r.2)
  | .conveyor inv animDir =>
    if side = meta.direction then (.conveyor inv animDir, some item)
    else if (inv.getItem 0).isSome then (.conveyor inv animDir, some item)
    else
      let newAnim := side.opposite
      if item.stackable = true ∧ 1 < item.meta then
        (.conveyor ⟨inv.items.set 0 (some { item with meta := 1 }), inv.isPlayer⟩ newAnim,
         some { item with meta := item.meta - 1 })
      else
        (.conveyor ⟨inv.items.set 0 (some item), inv.isPlayer⟩ newAnim, none)
  | .splitter inv lastDir cached =>
    if (BlockState.splitter inv lastDir cached).canPush side item meta = false then
      (.splitter inv lastDir cached, some item)
    else if (inv.getItem 0).isSome then (.splitter inv lastDir cached, some item)
    else if item.stackable = true ∧ 1 < item.meta then
      (.splitter ⟨inv.items.set 0 (some { item with meta := 1 }), inv.isPlayer⟩ lastDir cached,
       some { item with meta := item.meta - 1 })
    else
      (.splitter ⟨inv.items.set 0 (some item), inv.isPlayer⟩ lastDir cached, none)
  | .tunnel inv animDir t =>
    if (BlockState.tunnel inv animDir t).canPush side item meta = false then
      (.tunnel inv animDir t, some item)
    else
      (.tunnel ⟨inv.items.set 0 (some item), inv.isPlayer⟩ meta.direction t, none)
  | st => (st, some item)

/-! ## World and chunks (`src/world.rs`)

A `Chunk` owns a row-major `Vec<ChunkBlock>` of 32×32 cells.  A
`ChunkBlock`'s stored metadata is `(position, direction)`; the position
equals the cell's absolute coordinate (established by `Chunk::default`,
`Chunk::deserialize` and `set_block_at` alike), so cells are embedded as
`(direction, state)` with the position derived from the chunk
coordinates where needed.  The `HashMap<(i32, i32), Chunk>` is embedded
as an association list in insertion order — every use in the source
either looks a key up or (for serialization) explicitly sorts, so no
claim depends on hash iteration order. -/

def BLOCKS_PER_CHUNK_X : Nat := 32

def BLOCKS_PER_CHUNK_Y : Nat := 32

/-- One 32×32 chunk; `blocks` is the row-major cell vector. -/
structure Chunk where
  blocks : List (Direction × BlockState)
  chunkX : Int
  chunkY : Int
deriving DecidableEq, Repr

/-- `Chunk::default(chunk_x, chunk_y)`: 32×32 empty cells facing North. -/
def Chunk.default (chunkX chunkY : Int) : Chunk :=
  ⟨List.replicate (BLOCKS_PER_CHUNK_X * BLOCKS_PER_CHUNK_Y) (.north, .empty), chunkX, chunkY⟩

/-- The chunk-local offset computation shared by `Chunk::set_block_at`,
`Chunk::get_block_at` and `Chunk::get_block_at_mut`: truncating `%` with
a negative-remainder correction (the source adds `BLOCKS_PER_CHUNK_X`
for both axes). -/
def chunkLocalOffset (x y : Int) : Nat :=
  let offX := x.tmod (BLOCKS_PER_CHUNK_X : Int)
  let offY := y.tmod (BLOCKS_PER_CHUNK_Y : Int)
  let offX := if offX < 0 then offX + (BLOCKS_PER_CHUNK_X : Int) else offX
  let offY := if offY < 0 then offY + (BLOCKS_PER_CHUNK_X : Int) else offY
  (offY * (BLOCKS_PER_CHUNK_X : Int) + offX).toNat

/-- `Chunk::get_block_at(x, y)` (also `get_block_at_mut`): reads the cell
at the corrected offset. -/
def Chunk.getBlockAt (c : Chunk) (x y : Int) : Option (Direction × BlockState) :=
  c.blocks.get? (chunkLocalOffset x y)

/-- `Chunk::set_block_at(x, y, new_block, dir)`: replaces the cell and
calls `init` on it. -/
def Chunk.setBlockAt (c : Chunk) (x y : Int) (newBlock : BlockState) (dir : Direction) : Chunk :=
  ⟨c.blocks.set (chunkLocalOffset x y) (dir, newBlock.init), c.chunkX, c.chunkY⟩

/-- The world: chunk map plus loaded-rectangle bounds. -/
structure World where
  chunks : List ((Int × Int) × Chunk)
  w : Nat
  h : Nat
  startx : Int
  starty : Int
deriving DecidableEq, Repr

/-- Association-list lookup standing for `HashMap::get`. -/
def assocFind (chunks : List ((Int × Int) × Chunk)) (key : Int × Int) : Option Chunk :=
  match chunks with
  | [] => none
  | kv :: t => if kv.1 = key then some kv.2 else assocFind t key

/-- Association-list update standing for in-place mutation through
`HashMap::get_mut`; no-op when the key is absent. -/
def assocUpdate (chunks : List ((Int × Int) × Chunk)) (key : Int × Int)
    (f : Chunk → Chunk) : List ((Int × Int) × Chunk) :=
  match chunks with
  | [] => []
  | kv :: t => (if kv.1 = key then (kv.1, f kv.2) else kv) :: assocUpdate t key f

/-- The chunk-coordinate computation written out identically in
`World::get_block_at`, `World::get_block_at_mut` and
`World::set_block_at`: truncating `/` with the
`if remainder < 0 then chunk -= 1` correction. -/
def worldChunkCoords (x y : Int) : Int × Int :=
  let chunkX := x.tdiv (BLOCKS_PER_CHUNK_X : Int)
  let chunkY := y.tdiv (BLOCKS_PER_CHUNK_Y : Int)
  let chunkX := if x.tmod (BLOCKS_PER_CHUNK_X : Int) < 0 then chunkX - 1 else chunkX
  let chunkY := if y.tmod (BLOCKS_PER_CHUNK_Y : Int) < 0 then chunkY - 1 else chunkY
  (chunkX, chunkY)

/-- `World::get_block_at` (and `get_block_at_mut`): resolves the chunk,
then the cell; returns the block and its `ChunkBlockMetadata`, whose
position is the cell's absolute coordinate derived from the chunk. -/
def World.getBlockAt (world : World) (x y : Int) :
    Option (BlockState × ChunkBlockMetadata) :=
  match assocFind world.chunks (worldChunkCoords x y) with
  | none => none
  | some c =>
    match c.getBlockAt x y with
    | none => none
    | some cell =>
      let off := chunkLocalOffset x y
      let pos := Vec2i.new (c.chunkX * (BLOCKS_PER_CHUNK_X : Int) + (off % BLOCKS_PER_CHUNK_X : Nat))
        (c.chunkY * (BLOCKS_PER_CHUNK_Y : Int) + (off / BLOCKS_PER_CHUNK_X : Nat))
      some (cell.2, ⟨pos, cell.1⟩)

/-- `World::set_block_at`: same chunk resolution, then
`Chunk::set_block_at`; returns the updated world and the source's
`bool` result. -/
def World.setBlockAt (world : World) (x y : Int) (block : BlockState) (dir : Direction) :
    World × Bool :=
  match assocFind world.chunks (worldChunkCoords x y) with
  | none => (world, false)
  | some _ =>
    ({ world with
        chunks := assocUpdate world.chunks (worldChunkCoords x y)
          (fun c => c.setBlockAt x y block dir) }, true)

/-- In-place mutation of one cell reached through `get_block_at_mut`
(used by the tunnel handlers' `downcast_mut` writes). -/
def World.updateBlockAt (world : World) (x y : Int)
    (f : Direction × BlockState → Direction × BlockState) : World :=
  { world with
      chunks := assocUpdate world.chunks (worldChunkCoords x y)
        (fun c => ⟨c.blocks.modify f (chunkLocalOffset x y), c.chunkX, c.chunkY⟩) }

/-- `World::load_chunk` (insert of a fresh default chunk). -/
def World.loadChunk (world : World) (x y : Int) : World :=
  { world with chunks := world.chunks ++ [((x, y), Chunk.default x y)] }

/-- The chunk-loading loop of `World::new`: `for x in 0..w { for y in 0..h }`. -/
def newChunksLoop (offX offY : Int) (w h : Nat) : List ((Int × Int) × Chunk) :=
  (List.range w).flatMap (fun x =>
    (List.range h).map (fun y =>
      ((offX + (x : Int), offY + (y : Int)), Chunk.default (offX + (x : Int)) (offY + (y : Int)))))

/-- `World::new(w, h)`: bounds at `-(w/2), -(h/2)`, all chunks loaded. -/
def World.new (w h : Nat) : World :=
  let offX : Int := -((w / 2 : Nat) : Int)
  let offY : Int := -((h / 2 : Nat) : Int)
  ⟨newChunksLoop offX offY w h, w, h, offX, offY⟩

/-! ## Splitter direction choice (`src/blocks/splitter.rs`)

`ConveyorSplitter::determine_direction` scans
`sides_to_pushto = [dir.next(false), dir, dir.next(true)]` at indices
`i ∈ last_direction .. last_direction+3`, keeping the first side whose
neighbor accepts the buffered item, and records `last_idx = (i+1) % 3`
together with the chosen side.  `accepts s` abstracts the neighbor
query `world.get_block_at(pos+s).can_push(s.opposite(), &itm, meta)`. -/

/-- `sides_to_pushto[k % 3]`. -/
def sideAt (dir : Direction) (k : Nat) : Direction :=
  match k % 3 with
  | 0 => dir.next false
  | 1 => dir
  | _ => dir.next true

/-- The scan loop of `determine_direction`, unrolled over its three
iterations `i = last, last+1, last+2`; returns the chosen side and the
new `last_direction` index. -/
def determineDirectionScan (accepts : Direction → Bool) (dir : Direction)
    (lastDirection : Nat) : Option (Direction × Nat) :=
  if accepts (sideAt dir lastDirection) then
    some (sideAt dir lastDirection, (lastDirection + 1) % 3)
  else if accepts (sideAt dir (lastDirection + 1)) then
    some (sideAt dir (lastDirection + 1), (lastDirection + 2) % 3)
  else if accepts (sideAt dir (lastDirection + 2)) then
    some (sideAt dir (lastDirection + 2), (lastDirection + 3) % 3)
  else none

/-- The neighbor-acceptance oracle the splitter scan runs against in
`determine_direction`: is there a block one step toward `s` accepting
`itm` pushed through its side `s.opposite()`. -/
def neighborAccepts (world : World) (position : Vec2i) (itm : Item)
    (s : Direction) : Bool :=
  let pos := position.addDirectional s 1
  match world.getBlockAt pos.x pos.y with
  | some (blk, pushMeta) => blk.canPush s.opposite itm pushMeta
  | none => false

/-! ## Tunnel placement and dismantling (`src/blocks/tunnel.rs`) -/

/-- The placement scan offsets: `for i in -7..=7`, skipping `0`. -/
def tunnelScanOffsets : List Int :=
  ((List.range 15).map (fun i => (i : Int) - 7)).filter (fun i => i ≠ 0)

/-- `TunnelBlock::on_before_place`: scan for the first offset holding a
block with the tunnel identifier and the same facing; link it as
`Receiving(self_pos)` and self as `Pushing(found_pos)`; otherwise set
self's link to `None`.  Returns the placed block's new state and the
updated world. -/
def tunnelOnBeforePlace (inv : Inventory) (animDir : Direction) (ttype : TunnelType)
    (meta : ChunkBlockMetadata) (world : World) : BlockState × World :=
  let found := tunnelScanOffsets.find? (fun i =>
    let newPos := meta.position.addDirectional meta.direction i
    match world.getBlockAt newPos.x newPos.y with
    | some (blk, blkMeta) =>
      blk.identifier = BLOCK_TUNNEL ∧ blkMeta.direction = meta.direction
    | none => false)
  match found with
  | some i =>
    let blkPos := meta.position.addDirectional meta.direction i
    match world.getBlockAt blkPos.x blkPos.y with
    | none => (.tunnel inv animDir ttype, world)
    | some _ =>
      let world2 := world.updateBlockAt blkPos.x blkPos.y (fun cell =>
        match cell.2 with
        | .tunnel oInv oAnim _ => (cell.1, .tunnel oInv oAnim (.receiving meta.position))
        | _ => cell)
      match world.getBlockAt blkPos.x blkPos.y with
      | some (.tunnel _ _ _, _) => (.tunnel inv animDir (.pushing blkPos), world2)
      | _ => (.tunnel inv animDir ttype, world)
  | none => (.tunnel inv animDir .none, world)

/-- `TunnelBlock::on_after_dismantle`: reset the linked partner (if it
is a tunnel) to `TunnelType::None`. -/
def tunnelOnAfterDismantle (ttype : TunnelType) (world : World) : World :=
  match ttype with
  | .none => world
  | .pushing vec | .receiving vec =>
    world.updateBlockAt vec.x vec.y (fun cell =>
      match cell.2 with
      | .tunnel oInv oAnim _ => (cell.1, .tunnel oInv oAnim .none)
      | _ => cell)

/-! ## Serialization framework (`src/serialization/mod.rs`)

Serialized data is a byte list (each element < 256 for data produced by
the serializers).  `Buffer(Vec<u8>, usize)` is embedded literally below
for the claims about `try_read_elements` itself; the deserializers run
on the suffix of unread bytes, which every `Buffer` operation depends
on exclusively (theorem `buffer_ops_suffix_only`). -/

abbrev Bytes := List Nat

/-- `SerializationTrap` tag bytes. -/
inductive Trap where
  | string
  | hashMap
  | vec
  | option
  | item
  | block
  | chunk
  | world
  | time
  | unknown
deriving DecidableEq, Repr

/-- `*self as u8` (`Unknown = 0xff`). -/
def Trap.toByte : Trap → Nat
  | .string => 0
  | .hashMap => 1
  | .vec => 2
  | .option => 3
  | .item => 4
  | .block => 5
  | .chunk => 6
  | .world => 7
  | .time => 8
  | .unknown => 255

/-- `SerializationTrap::from_u8`. -/
def Trap.fromU8 (value : Nat) : Trap :=
  match value with
  | 0 => .string
  | 1 => .hashMap
  | 2 => .vec
  | 3 => .option
  | 4 => .item
  | 5 => .block
  | 6 => .chunk
  | 7 => .world
  | 8 => .time
  | _ => .unknown

/-- `SerializationError` (the `Io` case carries no information we model;
it cannot arise once the file bytes are in memory). -/
inductive SerErr where
  | notEnoughSpace
  | other
  | invalidData
  | serTrap (found expected : Trap)
deriving DecidableEq, Repr

/-- Result of running a deserializer on the unread suffix: success with
the remaining suffix, a typed error, or a panic of the underlying
buffer/`expect` machinery. -/
inductive DRes (α : Type) where
  | ok (a : α) (rest : Bytes)
  | err (e : SerErr)
  | panicked
deriving Repr, DecidableEq

/-- Sequencing of deserialization steps. -/
def DRes.bind {α β : Type} : DRes α → (α → Bytes → DRes β) → DRes β
  | .ok a rest, f => f a rest
  | .err e, _ => .err e
  | .panicked, _ => .panicked

/-- A deserializer: consumes a prefix of the unread suffix. -/
abbrev Deser (α : Type) := Bytes → DRes α

/-- `Buffer::try_read_elements(num)` on the unread suffix: succeeds iff
`pos + num < data.len()`, i.e. iff `num` is strictly less than the
suffix length, returning the `num` bytes read and the new suffix. -/
def tryTake : Nat → Bytes → Option (Bytes × Bytes)
  | 0, s => if s.isEmpty then none else some ([], s)
  | _ + 1, [] => none
  | n + 1, b :: t => (tryTake n t).map (fun p => (b :: p.1, p.2))

/-- `Buffer::read_element` on the unread suffix (panics when `len() < 1`). -/
def readByte : Bytes → Option (Nat × Bytes)
  | [] => none
  | b :: t => some (b, t)

/-! ### Primitive serializers -/

/-- Little-endian bytes of `n`, `k` bytes wide (`to_le_bytes`). -/
def natToLE : Nat → Nat → Bytes
  | 0, _ => []
  | k + 1, n => n % 256 :: natToLE k (n / 256)

/-- `from_le_bytes`. -/
def leToNat : Bytes → Nat
  | [] => 0
  | b :: t => b % 256 + 256 * leToNat t

/-- The `i32` two's-complement bit pattern as a natural number. -/
def i32bits (z : Int) : Nat := (z % 4294967296).toNat

/-- Read an `i32` value back from its 32-bit pattern. -/
def i32ofBits (n : Nat) : Int :=
  if n % 4294967296 < 2147483648 then (n % 4294967296 : Nat)
  else (n % 4294967296 : Nat) - 4294967296

/-- `u8`/`u16`/`u32`/`u64`/`usize` serialization: `k`-byte little endian. -/
def serNat (k n : Nat) : Bytes := natToLE k n

/-- `i32` serialization (`to_le_bytes` of the two's-complement pattern). -/
def serI32 (z : Int) : Bytes := natToLE 4 (i32bits z)

/-- `bool` serialization. -/
def serBool (b : Bool) : Bytes := [if b then 1 else 0]

/-- `Direction` serialization (`(*self as u8).serialize`). -/
def serDirection (d : Direction) : Bytes := natToLE 1 d.toU8

/-- `SerializationTrap` serialization (`buf.push(*self as u8)`). -/
def serTrapTag (t : Trap) : Bytes := [t.toByte]

/-- Numeric `try_deserialize` (`try_read_elements(size_of)` then
`from_le_bytes`). -/
def deserNat (k : Nat) : Deser Nat := fun s =>
  match tryTake k s with
  | some (bs, rest) => .ok (leToNat bs) rest
  | none => .err .notEnoughSpace

/-- `i32::try_deserialize`. -/
def deserI32 : Deser Int := fun s =>
  match tryTake 4 s with
  | some (bs, rest) => .ok (i32ofBits (leToNat bs)) rest
  | none => .err .notEnoughSpace

/-- `bool::try_deserialize` (`buf.try_read_elements(1)?[0] != 0`). -/
def deserBool : Deser Bool := fun s =>
  match tryTake 1 s with
  | some (bs, rest) => .ok (decide (bs.headD 0 ≠ 0)) rest
  | none => .err .notEnoughSpace

/-- `bool::deserialize` (the `Deserialize` trait default:
`try_deserialize(buf).expect(..)`, so failure panics). -/
def deserBoolOrPanic : Deser Bool := fun s =>
  match deserBool s with
  | .ok b rest => .ok b rest
  | _ => .panicked

/-- `Direction::try_deserialize` (`Self::from(u8::try_deserialize(buf)?)`). -/
def deserDirection : Deser Direction := fun s =>
  DRes.bind (deserNat 1 s) fun n rest => .ok (Direction.fromU8 n) rest

/-- `SerializationTrap::try_deserialize`: reads via the panicking
`read_element`, then reports a `SerializeTrap` error on mismatch. -/
def Trap.tryDeserialize (t : Trap) : Deser Unit := fun s =>
  match readByte s with
  | none => .panicked
  | some (b, rest) =>
    if b = t.toByte then .ok () rest
    else .err (.serTrap (Trap.fromU8 b) t)

/-! ### Composite serializers

`Vec<T>`: `Vec` trap, `usize` length, elements.  `Option<T>`: `Option`
trap, `bool` flag, payload.  `String`: `String` trap, `Vec<u8>` of the
UTF-8 bytes, validated on decode.  Tuples serialize componentwise. -/

/-- `Vec<T>::serialize`. -/
def serVec {α : Type} (serElem : α → Bytes) (l : List α) : Bytes :=
  serTrapTag .vec ++ serNat 8 l.length ++ (l.map serElem).flatten

/-- `Option<T>::serialize`. -/
def serOption {α : Type} (serElem : α → Bytes) : Option α → Bytes
  | some v => serTrapTag .option ++ serBool true ++ serElem v
  | none => serTrapTag .option ++ serBool false

/-- Read `count` successive elements (the `for _ in 0..len` loops of the
`Vec` and `HashMap` decoders). -/
def deserCount {α : Type} (d : Deser α) : Nat → Deser (List α)
  | 0 => fun s => .ok [] s
  | n + 1 => fun s =>
    DRes.bind (d s) fun a s1 =>
    DRes.bind (deserCount d n s1) fun l s2 =>
    .ok (a :: l) s2

/-- `Vec<T>::try_deserialize`. -/
def deserVec {α : Type} (d : Deser α) : Deser (List α) := fun s =>
  DRes.bind (Trap.tryDeserialize .vec s) fun _ s1 =>
  DRes.bind (deserNat 8 s1) fun len s2 =>
  deserCount d len s2

/-- `Option<T>::try_deserialize`. -/
def deserOption {α : Type} (d : Deser α) : Deser (Option α) := fun s =>
  DRes.bind (Trap.tryDeserialize .option s) fun _ s1 =>
  DRes.bind (deserBool s1) fun flag s2 =>
  if flag then DRes.bind (d s2) fun v s3 => .ok (some v) s3
  else .ok none s2

/-- UTF-8 continuation byte (`0x80..=0xBF`). -/
def isCont (b : Nat) : Bool := 128 ≤ b ∧ b ≤ 191

/-- UTF-8 validity of a byte list, as `String::from_utf8` checks it. -/
def utf8Valid : Bytes → Bool
  | [] => true
  | b :: t =>
    if b < 128 then utf8Valid t
    else if 194 ≤ b ∧ b ≤ 223 then
      match t with
      | c :: t2 => isCont c && utf8Valid t2
      | [] => false
    else if (b = 224 ∨ (225 ≤ b ∧ b ≤ 236) ∨ b = 237 ∨ (238 ≤ b ∧ b ≤ 239)) then
      match t with
      | c :: c2 :: t3 =>
        (if b = 224 then 160 ≤ c ∧ c ≤ 191
         else if b = 237 then 128 ≤ c ∧ c ≤ 159
         else isCont c = true : Bool) && (isCont c2 && utf8Valid t3)
      | _ => false
    else if (b = 240 ∨ (241 ≤ b ∧ b ≤ 243) ∨ b = 244) then
      match t with
      | c :: c2 :: c3 :: t4 =>
        (if b = 240 then 144 ≤ c ∧ c ≤ 191
         else if b = 244 then 128 ≤ c ∧ c ≤ 143
         else isCont c = true : Bool) && (isCont c2 && (isCont c3 && utf8Valid t4))
      | _ => false
    else false

/-- `String`/`&str`/`GlobalString` serialization: `String` trap plus the
byte vector (a `GlobalString` serializes its interned contents). -/
def serString (gs : GlobalString) : Bytes :=
  serTrapTag .string ++ serVec (fun b => [b % 256]) gs

/-- `String::try_deserialize` (including the `from_utf8` validation);
`GlobalString::try_deserialize` interns the resulting string, which
preserves its content. -/
def deserString : Deser GlobalString := fun s =>
  DRes.bind (deserVecU8 s) fun bytes rest =>
  if utf8Valid bytes then .ok bytes rest else .err .invalidData
where
  /-- `Vec<u8>::try_deserialize` run after the `String` trap. -/
  deserVecU8 : Deser Bytes := fun s =>
    DRes.bind (Trap.tryDeserialize .string s) fun _ s1 =>
    deserVec (deserNat 1) s1

/-- `Identifier::serialize`: major then minor. -/
def serIdent (id : Identifier) : Bytes := serString id.major ++ serString id.minor

/-- `Identifier::try_deserialize`. -/
def deserIdent : Deser Identifier := fun s =>
  DRes.bind (deserString s) fun major s1 =>
  DRes.bind (deserString s1) fun minor s2 =>
  .ok ⟨major, minor⟩ s2

/-! ### Items, inventories, blocks, chunks, worlds on the wire -/

/-- `Box<dyn Item>::serialize`: `Item` trap, identifier, `u32` metadata,
then the kind payload (empty for both `ItemCoal` and `BlockItem`). -/
def serItem (item : Item) : Bytes :=
  serTrapTag .item ++ serIdent item.ident ++ serNat 4 item.meta

/-- `Box<dyn Item>::try_deserialize`: registry lookup by identifier,
clone, overwrite metadata, then the (empty) kind payload. -/
def deserItem : Deser Item := fun s =>
  DRes.bind (Trap.tryDeserialize .item s) fun _ s1 =>
  DRes.bind (deserIdent s1) fun ident s2 =>
  match getItemById ident with
  | none => .err .invalidData
  | some template =>
    DRes.bind (deserNat 4 s2) fun meta s3 =>
    .ok { template with meta := meta } s3

/-- `Inventory::serialize`: the slot vector, then `is_player`. -/
def serInventory (inv : Inventory) : Bytes :=
  serVec (serOption serItem) inv.items ++ serBool inv.isPlayer

/-- `Inventory::try_deserialize`. -/
def deserInventory : Deser Inventory := fun s =>
  DRes.bind (deserVec (deserOption deserItem) s) fun items s1 =>
  DRes.bind (deserBool s1) fun isPlayer s2 =>
  .ok ⟨items, isPlayer⟩ s2

/-- `TunnelType::serialize` (`u8` tag then the partner position as a
`Vec2i`, itself a `Vec` trap, length 2, and two `i32`s). -/
def serTunnelType : TunnelType → Bytes
  | .pushing vec => serNat 1 0 ++ serVec2i vec
  | .receiving vec => serNat 1 1 ++ serVec2i vec
  | .none => serNat 1 2
where
  /-- `Vec2i::serialize`. -/
  serVec2i (v : Vec2i) : Bytes :=
    serTrapTag .vec ++ serNat 8 2 ++ serI32 v.x ++ serI32 v.y

/-- The kind-specific payload written by `Block::serialize`:
`empty_serializable!` for `EmptyBlock`/`ResourceNodeBrown`, the whole
inventory for `StorageContainer`, `simple_single_item_serializable!`
(slot 0 only) for extractor and splitter, slot 0 plus the animation
direction for the conveyor, and inventory/direction/link for the
tunnel. -/
def blockPayload : BlockState → Bytes
  | .empty => []
  | .resourceNodeBrown => []
  | .storageContainer inv => serInventory inv
  | .extractor inv => serOption serItem (inv.getItem 0)
  | .conveyor inv animDir => serOption serItem (inv.getItem 0) ++ serDirection animDir
  | .splitter inv _ _ => serOption serItem (inv.getItem 0)
  | .tunnel inv animDir ttype => serInventory inv ++ serDirection animDir ++ serTunnelType ttype

/-- `Box<dyn Block>::serialize`: `Block` trap, `is_empty` flag, and for
non-empty blocks the identifier plus kind payload. -/
def serBlock (st : BlockState) : Bytes :=
  serTrapTag .block ++ serBool (st.identifier = BLOCK_EMPTY) ++
    (if st.identifier = BLOCK_EMPTY then [] else serIdent st.identifier ++ blockPayload st)

/-- The kind-specific `Block::try_deserialize`, run on a clone of the
registry template (`simple_single_item_serializable!` first resizes the
clone's inventory to one slot, then writes slot 0). -/
def blockPayloadDeser (template : BlockState) : Deser BlockState := fun s =>
  match template with
  | .empty => .ok .empty s
  | .resourceNodeBrown => .ok .resourceNodeBrown s
  | .storageContainer _ =>
    DRes.bind (deserInventory s) fun inv s1 => .ok (.storageContainer inv) s1
  | .extractor _ =>
    DRes.bind (deserOption deserItem s) fun item s1 =>
    .ok (.extractor ⟨[item], false⟩) s1
  | .conveyor _ _ =>
    DRes.bind (deserOption deserItem s) fun item s1 =>
    DRes.bind (deserDirection s1) fun dir s2 =>
    .ok (.conveyor ⟨[item], false⟩ dir) s2
  | .splitter _ _ _ =>
    DRes.bind (deserOption deserItem s) fun item s1 =>
    .ok (.splitter ⟨[item], false⟩ 0 none) s1
  | .tunnel _ _ _ =>
    DRes.bind (deserInventory s) fun inv s1 =>
    DRes.bind (deserDirection s1) fun dir s2 =>
    DRes.bind (deserTunnelType s2) fun ttype s3 =>
    .ok (.tunnel inv dir ttype) s3
where
  /-- `TunnelType::try_deserialize`. -/
  deserTunnelType : Deser TunnelType := fun s =>
    DRes.bind (deserNat 1 s) fun tag s1 =>
    match tag with
    | 0 => DRes.bind (deserVec2i s1) fun v s2 => .ok (.pushing v) s2
    | 1 => DRes.bind (deserVec2i s1) fun v s2 => .ok (.receiving v) s2
    | 2 => .ok .none s1
    | _ => .err .invalidData
  /-- `Vec2i::try_deserialize`. -/
  deserVec2i : Deser Vec2i := fun s =>
    DRes.bind (Trap.tryDeserialize .vec s) fun _ s1 =>
    DRes.bind (deserNat 8 s1) fun len s2 =>
    if len = 2 then
      DRes.bind (deserI32 s2) fun x s3 =>
      DRes.bind (deserI32 s3) fun y s4 =>
      .ok ⟨x, y⟩ s4
    else .err .invalidData

/-- `Box<dyn Block>::try_deserialize`: `Block` trap, then the panicking
`bool::deserialize` for the `is_empty` flag, then the registry lookup
and kind payload. -/
def deserBlock : Deser BlockState := fun s =>
  DRes.bind (Trap.tryDeserialize .block s) fun _ s1 =>
  DRes.bind (deserBoolOrPanic s1) fun isEmpty s2 =>
  if isEmpty then .ok .empty s2
  else
    DRes.bind (deserIdent s2) fun ident s3 =>
    match getBlockById ident with
    | none => .err .invalidData
    | some template => blockPayloadDeser template s3

/-! ### Chunk and world serialization (`src/world.rs`) -/

/-- One serialized cell: direction byte, then the block. -/
def serCell (cell : Direction × BlockState) : Bytes :=
  serDirection cell.1 ++ serBlock cell.2

/-- `Chunk::serialize`: `Chunk` trap, `chunk_x`, `chunk_y`, the block
count as `usize`, then every cell. -/
def serChunk (c : Chunk) : Bytes :=
  serTrapTag .chunk ++ serI32 c.chunkX ++ serI32 c.chunkY ++
    serNat 8 c.blocks.length ++ (c.blocks.map serCell).flatten

/-- One cell of `Chunk::try_deserialize`. -/
def deserCell : Deser (Direction × BlockState) := fun s =>
  DRes.bind (deserDirection s) fun dir s1 =>
  DRes.bind (deserBlock s1) fun blk s2 =>
  .ok (dir, blk) s2

/-- `Chunk::try_deserialize`: reads the header, then exactly 32×32 cells
(the stored block count is read but not used). -/
def deserChunk : Deser Chunk := fun s =>
  DRes.bind (Trap.tryDeserialize .chunk s) fun _ s1 =>
  DRes.bind (deserI32 s1) fun chunkX s2 =>
  DRes.bind (deserI32 s2) fun chunkY s3 =>
  DRes.bind (deserNat 8 s3) fun _numBlocks s4 =>
  DRes.bind (deserCount deserCell (BLOCKS_PER_CHUNK_Y * BLOCKS_PER_CHUNK_X) s4) fun cells s5 =>
  .ok ⟨cells, chunkX, chunkY⟩ s5

/-- `i32::abs` (the wrap of `i32::MIN.abs()` in release builds is
irrelevant at the magnitudes the claims quantify over). -/
def i32abs (z : Int) : Int := if z < 0 then -z else z

/-- An `i32 as usize` cast: sign-extension, i.e. the value mod `2^64`. -/
def usizeCast (z : Int) : Nat := (z % 18446744073709551616).toNat

/-- The sort key `World::serialize` computes for the chunk at `(a, b)`:
`(a + startx.abs()) as usize + (b + startx.abs()) as usize * w as usize`
(note: `startx.abs()` on both axes), with `usize` wrapping arithmetic. -/
def chunkSortKey (startx : Int) (w : Nat) (coord : Int × Int) : Nat :=
  (usizeCast (coord.1 + i32abs startx) +
    usizeCast (coord.2 + i32abs startx) * w % 18446744073709551616) % 18446744073709551616

/-- The chunk records of `World::serialize`, in emission order: pairs
`(key, chunk)` sorted ascending by key.  `vals.sort_by(|a, b|
a.0.cmp(&b.0))` is a stable ascending sort; `List.insertionSort` is the
same stable sort (stable sorts agree extensionally), chosen here because
it is structurally recursive. -/
def World.serializeChunkSeq (world : World) : List Chunk :=
  ((world.chunks.map (fun kv => (chunkSortKey world.startx world.w kv.1, kv.2))).insertionSort
      (fun a b => a.1 ≤ b.1)).map (fun p => p.2)

/-- `World::serialize`: `World` trap, `startx`, `starty`, `w`, `h`, then
the chunk records in key order.  The `assert_eq!(w*h, chunks.len())`
panic is the `none` case. -/
def World.serialize (world : World) : Option Bytes :=
  if world.w * world.h = world.chunks.length then
    some (serTrapTag .world ++ serI32 world.startx ++ serI32 world.starty ++
      serNat 4 world.w ++ serNat 4 world.h ++
      (world.serializeChunkSeq.map serChunk).flatten)
  else none

/-- The deserialized-world key for chunk record `i`:
`((i % w) + startx, (i / w) + starty)`. -/
def gridCoord (w : Nat) (startx starty : Int) (i : Nat) : Int × Int :=
  (((i % w : Nat) : Int) + startx, ((i / w : Nat) : Int) + starty)

/-- The full key enumeration `i = 0 .. w*h`, i.e. row-major order
relative to `(startx, starty)`. -/
def gridCoords (w h : Nat) (startx starty : Int) : List (Int × Int) :=
  (List.range (w * h)).map (gridCoord w startx starty)

/-- The chunk-record loop of `World::try_deserialize`, reading `count`
chunks starting at index `i`. -/
def deserChunkRecords (w : Nat) (startx starty : Int) :
    Nat → Nat → Deser (List ((Int × Int) × Chunk))
  | _, 0 => fun s => .ok [] s
  | i, count + 1 => fun s =>
    DRes.bind (deserChunk s) fun c s1 =>
    DRes.bind (deserChunkRecords w startx starty (i + 1) count s1) fun rest s2 =>
    .ok ((gridCoord w startx starty i, c) :: rest) s2

/-- `World::try_deserialize`. -/
def World.tryDeserialize : Deser World := fun s =>
  DRes.bind (Trap.tryDeserialize .world s) fun _ s1 =>
  DRes.bind (deserI32 s1) fun startx s2 =>
  DRes.bind (deserI32 s2) fun starty s3 =>
  DRes.bind (deserNat 4 s3) fun w s4 =>
  DRes.bind (deserNat 4 s4) fun h s5 =>
  DRes.bind (deserChunkRecords w startx starty 0 (w * h) s5) fun chunks s6 =>
  .ok ⟨chunks, w, h, startx, starty⟩ s6

/-! ### Saved games (`save_game` / `load_game`) -/

/-- The 8-byte signature `PN2S_SAV`. -/
def SIGNATURE : Bytes := asciiBytes "PN2S_SAV"

/-- `save_game`'s buffer: signature, save time, world, player inventory.
`None` when `World::serialize` would panic. -/
def saveGame (world : World) (playerInventory : Inventory) (timeSecs : Nat) : Option Bytes :=
  match world.serialize with
  | some worldBytes =>
    some (SIGNATURE ++ (serTrapTag .time ++ serNat 8 timeSecs) ++ worldBytes ++
      serInventory playerInventory)
  | none => none

/-- `load_game` on the file's bytes: length check, signature via the
panicking `read_elements(8)`, save time, world, player inventory via
the panicking `Inventory::deserialize`, then the final
`if buf.len() < 1` check.  Returns the world, the player inventory and
the save time. -/
def loadGame (s : Bytes) : DRes (World × Inventory × Nat) :=
  if s.length < 8 then .err .invalidData
  else if s.length ≤ 8 then .panicked
  else if s.take 8 ≠ SIGNATURE then .err .invalidData
  else
    DRes.bind (Trap.tryDeserialize .time (s.drop 8)) fun _ s1 =>
    DRes.bind (deserNat 8 s1) fun timeSecs s2 =>
    DRes.bind (World.tryDeserialize s2) fun world s3 =>
    DRes.bind (deserInventoryOrPanic s3) fun inventory s4 =>
    if s4.length < 1 then .err .invalidData
    else .ok (world, inventory, timeSecs) s4
where
  /-- `Inventory::deserialize` (trait default, panics on error). -/
  deserInventoryOrPanic : Deser Inventory := fun s =>
    match deserInventory s with
    | .ok inv rest => .ok inv rest
    | _ => .panicked

/-! ### The literal `Buffer(Vec<u8>, usize)` -/

/-- `Buffer`: the backing byte vector and the read position. -/
structure Buffer where
  data : Bytes
  pos : Nat
deriving DecidableEq, Repr

/-- `Buffer::new`. -/
def Buffer.new (data : Bytes) : Buffer := ⟨data, 0⟩

/-- `Buffer::len`: `data.len().saturating_sub(pos)`. -/
def Buffer.len (b : Buffer) : Nat := b.data.length - b.pos

/-- `Buffer::try_read_elements(num)`: advances the position first, then
fails with `NotEnoughSpace` when the advanced position reaches or
passes the end. -/
def Buffer.tryReadElements (b : Buffer) (num : Nat) : Except SerErr Bytes × Buffer :=
  let b2 : Buffer := ⟨b.data, b.pos + num⟩
  if b.data.length ≤ b2.pos then (.error .notEnoughSpace, b2)
  else (.ok ((b2.data.drop (b2.pos - num)).take num), b2)

/-- `Buffer::try_read_element`. -/
def Buffer.tryReadElement (b : Buffer) : Except SerErr Nat × Buffer :=
  if b.len < 1 then (.error .notEnoughSpace, b)
  else (.ok (b.data.getD b.pos 0), ⟨b.data, b.pos + 1⟩)

/-! ## Well-formedness of serializable states

These predicates delimit the states the running game actually produces
(registered kinds, `init`-sized inventories, `u32`/`i32`/`usize` values
in range); the round-trip theorems quantify over them. -/

/-- Byte-list content fit to travel through `String` serialization. -/
def strBytesWF (gs : GlobalString) : Bool :=
  utf8Valid gs && (gs.all (fun b => b < 256) && gs.length < 18446744073709551616)

def IdentWF (id : Identifier) : Bool := strBytesWF id.major && strBytesWF id.minor

/-- An item that deserializes back to itself: registered identity,
`u32` metadata, and the stack flag every registered kind has. -/
def ItemWF (it : Item) : Bool :=
  (getItemById it.ident).isSome && (it.stackable && it.meta < 4294967296)

def slotWF (slot : Option Item) : Bool :=
  match slot with
  | none => true
  | some it => ItemWF it

/-- An inventory whose full contents survive serialization. -/
def InvWF (inv : Inventory) : Bool :=
  inv.items.length < 18446744073709551616 && inv.items.all slotWF

/-- The machine-held single-slot inventory `init` establishes. -/
def Inv1WF (inv : Inventory) : Bool :=
  inv.items.length = 1 && (inv.isPlayer = false && inv.items.all slotWF)

/-- Block states of registered kinds in the shape `init` leaves them. -/
def BlockWF : BlockState → Bool
  | .empty => true
  | .resourceNodeBrown => true
  | .storageContainer inv => InvWF inv
  | .extractor inv => Inv1WF inv
  | .conveyor inv _ => Inv1WF inv
  | .splitter inv _ _ => Inv1WF inv
  | .tunnel _ _ _ => false

def i32InRange (z : Int) : Bool := decide (-2147483648 ≤ z) && decide (z < 2147483648)

/-- A chunk whose records survive serialization: 32×32 cells of
well-formed registered blocks, `i32` chunk coordinates. -/
def ChunkWF (c : Chunk) : Bool :=
  c.blocks.length = BLOCKS_PER_CHUNK_X * BLOCKS_PER_CHUNK_Y &&
    (i32InRange c.chunkX && (i32InRange c.chunkY && c.blocks.all (fun cell => BlockWF cell.2)))

/-- What one block round-trips to: identical state except that a
splitter's round-robin index and cached direction reset to their
defaults (they are not serialized). -/
def blockRT : BlockState → BlockState
  | .splitter inv _ _ => .splitter inv 0 none
  | st => st

def cellRT (cell : Direction × BlockState) : Direction × BlockState := (cell.1, blockRT cell.2)

def chunkRT (c : Chunk) : Chunk := ⟨c.blocks.map cellRT, c.chunkX, c.chunkY⟩

/-- The sort key as the spec's words have it:
`(x + |startx|) + (y + |starty|) * w` (refinement comparison point for
the key the code computes, `chunkSortKey`). -/
def specChunkKey (startx starty : Int) (w : Nat) (coord : Int × Int) : Int :=
  (coord.1 + i32abs startx) + (coord.2 + i32abs starty) * (w : Int)

/-! ## Concrete objects for the counterexamples and witnesses -/

/-- A 1×2-chunk world (`w = 1 < h = 2`, so `startx = 0`, `starty = -1`)
with one eastward conveyor at block (0, 0). -/
def W12 : World :=
  ((World.new 1 2).setBlockAt 0 0 (.conveyor (Inventory.new 1 false) .north) .east).1

def W12bytes : Bytes := W12.serialize.getD []

/-- The world deserialized from `W12bytes` plus one trailing byte. -/
def W12rt : World :=
  match World.tryDeserialize (W12bytes ++ [0]) with
  | .ok wr _ => wr
  | _ => World.new 0 0

/-- A 1×1-chunk world holding three tunnels facing North on the column
`x = 7`: a freshly considered one at (7, 10), an unlinked one 1 tile
ahead at (7, 9), and an unlinked one 7 tiles behind at (7, 17). -/
def tunnelWorld : World :=
  (((World.new 1 1).setBlockAt 7 9 (.tunnel (Inventory.new 1 false) .north .none) .north).1.setBlockAt
      7 17 (.tunnel (Inventory.new 1 false) .north .none) .north).1

/-- The placement of the new tunnel at (7, 10) facing North. -/
def tunnelPlacement : BlockState × World :=
  tunnelOnBeforePlace (Inventory.new 1 false) .north .none ⟨⟨7, 10⟩, .north⟩ tunnelWorld

/-- A minimal successfully loading save file: signature, time 0, an
empty 0×0 world, an empty non-player inventory, one trailing byte. -/
def minimalSave : Bytes :=
  (saveGame (World.new 0 0) (Inventory.new 0 false) 0).getD [] ++ [0]

/-! ## Inventory operation sequences (for the capacity invariant) -/

/-- One inventory call: `add_item(item, slot)` or `try_add_item(item)`. -/
inductive InvOp where
  | add (item : Item) (slot : Nat)
  | tryAdd (item : Item)
deriving DecidableEq, Repr

/-- The item an operation inserts. -/
def InvOp.item : InvOp → Item
  | .add it _ => it
  | .tryAdd it => it

/-- Run one operation. -/
def applyInvOp (inv : Inventory) : InvOp → Inventory × Option Item
  | .add it slot => inv.addItem it slot
  | .tryAdd it => inv.tryAddItem it

/-- Run a call sequence, accumulating the units inserted and the units
returned (rejected) to the callers. -/
def runInvOps : Inventory → List InvOp → Inventory × Nat × Nat
  | inv, [] => (inv, 0, 0)
  | inv, op :: ops =>
    let r := applyInvOp inv op
    let tail := runInvOps r.1 ops
    (tail.1, op.item.units + tail.2.1, unitsOpt r.2 + tail.2.2)

/-- A slot that is either free or holds a stack-typed item within the
per-slot cap. -/
def slotOk255 (slot : Option Item) : Bool :=
  match slot with
  | none => true
  | some it => it.stackable && it.meta ≤ MAX_ITEMS_PER_SLOT

/-- The keyed chunk list of a world whose chunk map holds exactly the
`World::new` grid, with `content` giving each coordinate's chunk. -/
def canonicalKeyed (w h : Nat) (sx sy : Int) (content : (Int × Int) → Chunk) :
    List ((Int × Int) × Chunk) :=
  (gridCoords w h sx sy).map (fun c => (c, content c))

/-- The chunk of `W12` at chunk coordinate (0, 0) (it holds the
conveyor). -/
def W12chunk00 : Chunk := (assocFind W12.chunks (0, 0)).getD (Chunk.default 0 0)

/-- What `W12` actually round-trips to through a save file: the chunk
contents land at swapped coordinates, because the chunk at (0, -1) wraps
to the sort key `2^64 - 1` (its `b + startx.abs()` is `-1`) and is
emitted second, while the deserializer assigns coordinates in row-major
order. -/
def W12scrambled : World :=
  ⟨[((0, -1), chunkRT W12chunk00), ((0, 0), chunkRT (Chunk.default 0 (-1)))], 1, 2, 0, -1⟩

/-- The inventory a block holds, if any (its serialized contents). -/
def blockInventory : BlockState → Option Inventory
  | .empty => none
  | .resourceNodeBrown => none
  | .storageContainer inv => some inv
  | .extractor inv => some inv
  | .conveyor inv _ => some inv
  | .splitter inv _ _ => some inv
  | .tunnel inv _ _ => some inv

/-! # Theorems -/

/-! ## Conveyor transfer (C4) -/

/-- C4.  A conveyor belt facing East with an empty single-slot buffer,
pushed a stackable item of metadata 5 from the West side, stores the
item's identity with metadata 1 in its slot (and turns its animation
source to East) and returns the same identity with metadata 4 —
whatever the belt's previous animation direction, the block's position,
and the item's identity. -/
theorem conveyor_push_east_west_meta5 (animDir : Direction) (pos : Vec2i) (id : Identifier) :
    (BlockState.conveyor (Inventory.new 1 false) animDir).push .west ⟨id, 5, true⟩
        ⟨pos, .east⟩ =
      (.conveyor ⟨[some ⟨id, 1, true⟩], false⟩ .east, some ⟨id, 4, true⟩) := by
  rfl

/-! ## Push failure leaves state unchanged (C3) -/

/-- C3 counterexample.  A `StorageContainer` facing North with a fresh
5×9 inventory cannot accept an item pushed on its East side
(`can_push = false`), yet `push` ignores the side, stores the item and
returns `None` — so the failed-push contract does not hold for every
block kind. -/
theorem container_push_ignores_side :
    ((BlockState.storageContainer (Inventory.new 45 false)).canPush .east (coalItem 1)
        ⟨⟨0, 0⟩, .north⟩) = false ∧
      ((BlockState.storageContainer (Inventory.new 45 false)).push .east (coalItem 1)
          ⟨⟨0, 0⟩, .north⟩).2 = none ∧
      ((BlockState.storageContainer (Inventory.new 45 false)).push .east (coalItem 1)
          ⟨⟨0, 0⟩, .north⟩).1 ≠ .storageContainer (Inventory.new 45 false) := by
  refine ⟨by decide, by decide, by decide⟩

/-- C3 amended.  For every block kind except `StorageContainer` (whose
`push` delegates to `try_add_item` without consulting the side), a push
the block cannot currently accept returns the item itself and leaves
the state untouched. -/
theorem push_failure_returns_item_unchanged (st : BlockState) (side : Direction)
    (item : Item) (meta : ChunkBlockMetadata)
    (hcannot : st.canPush side item meta = false)
    (hnotContainer : ∀ inv, st ≠ .storageContainer inv) :
    st.push side item meta = (st, some item) := by
  cases st with
  | empty => rfl
  | resourceNodeBrown => rfl
  | extractor inv => rfl
  | storageContainer inv => exact absurd rfl (hnotContainer inv)
  | splitter inv lastDir cached =>
    simp only [BlockState.push, hcannot]
    rfl
  | tunnel inv animDir t =>
    simp only [BlockState.push, hcannot]
    rfl
  | conveyor inv animDir =>
    simp only [BlockState.push]
    by_cases hsd : side = meta.direction
    · rw [if_pos hsd]
    · rw [if_neg hsd]
      have hsome : (inv.getItem 0).isSome = true := by
        simp only [BlockState.canPush, BlockState.hasCapabilityPush, Bool.and_eq_false_iff,
          Bool.not_eq_false', decide_eq_true_eq, Option.isNone_eq_false_iff] at hcannot
        rcases hcannot with h | h
        · exact h
        · exact absurd h hsd
      rw [if_pos hsome]

/-- C3 witness: a conveyor pushed against its own facing refuses the
item and keeps its state. -/
theorem push_failure_returns_item_unchanged_witness :
    (BlockState.conveyor (Inventory.new 1 false) .north).canPush .east (coalItem 1)
        ⟨⟨0, 0⟩, .east⟩ = false ∧
      (BlockState.conveyor (Inventory.new 1 false) .north).push .east (coalItem 1)
          ⟨⟨0, 0⟩, .east⟩ =
        (.conveyor (Inventory.new 1 false) .north, some (coalItem 1)) :=
  ⟨by decide,
    push_failure_returns_item_unchanged _ _ _ _ (by decide)
      (fun _ h => BlockState.noConfusion h)⟩

/-! ## Coordinate-to-chunk resolution (C8) -/

/-- Negating the dividend negates the truncating remainder. -/
theorem tmod_neg_dividend (a b : Int) : (-a).tmod b = -(a.tmod b) := by
  simp [Int.tmod_def, Int.neg_tdiv]; ring

/-- The truncating quotient with the source's borrow correction is the
floor (euclidean, for the positive divisor 32) quotient. -/
theorem tdiv32_with_correction (x : Int) :
    (if x.tmod 32 < 0 then x.tdiv 32 - 1 else x.tdiv 32) = x / 32 := by
  rcases le_or_lt 0 x with hx | hx
  · rw [Int.tdiv_eq_ediv hx (by norm_num), Int.tmod_eq_emod hx (by norm_num)]
    have h := Int.emod_nonneg x (show (32 : Int) ≠ 0 by norm_num)
    rw [if_neg (by omega)]
  · have hx' : (0 : Int) ≤ -x := by omega
    have hd : x.tdiv 32 = -((-x).tdiv 32) := by
      conv_lhs => rw [show x = -(-x) by ring]
      rw [Int.neg_tdiv]
    have hm : x.tmod 32 = -((-x).tmod 32) := by
      conv_lhs => rw [show x = -(-x) by ring]
      rw [tmod_neg_dividend]
    rw [Int.tdiv_eq_ediv hx' (by norm_num)] at hd
    rw [Int.tmod_eq_emod hx' (by norm_num)] at hm
    have h1 : (-x) % 32 + 32 * ((-x) / 32) = -x := by
      have := Int.ediv_add_emod (-x) 32
      omega
    have h2 : 0 ≤ (-x) % 32 := Int.emod_nonneg (-x) (by norm_num)
    have h3 : (-x) % 32 < 32 := Int.emod_lt_of_pos (-x) (by norm_num)
    have h4 : x % 32 + 32 * (x / 32) = x := by
      have := Int.ediv_add_emod x 32
      omega
    have h5 : 0 ≤ x % 32 := Int.emod_nonneg x (by norm_num)
    have h6 : x % 32 < 32 := Int.emod_lt_of_pos x (by norm_num)
    rw [hd, hm]
    split <;> omega

/-- The truncating remainder with the source's wraparound correction is
the euclidean remainder. -/
theorem tmod32_with_correction (x : Int) :
    (if x.tmod 32 < 0 then x.tmod 32 + 32 else x.tmod 32) = x % 32 := by
  rcases le_or_lt 0 x with hx | hx
  · rw [Int.tmod_eq_emod hx (by norm_num)]
    have h := Int.emod_nonneg x (show (32 : Int) ≠ 0 by norm_num)
    rw [if_neg (by omega)]
  · have hx' : (0 : Int) ≤ -x := by omega
    have hm : x.tmod 32 = -((-x).tmod 32) := by
      conv_lhs => rw [show x = -(-x) by ring]
      rw [tmod_neg_dividend]
    rw [Int.tmod_eq_emod hx' (by norm_num)] at hm
    have h1 : (-x) % 32 + 32 * ((-x) / 32) = -x := by
      have := Int.ediv_add_emod (-x) 32
      omega
    have h2 : 0 ≤ (-x) % 32 := Int.emod_nonneg (-x) (by norm_num)
    have h3 : (-x) % 32 < 32 := Int.emod_lt_of_pos (-x) (by norm_num)
    have h4 : x % 32 + 32 * (x / 32) = x := by
      have := Int.ediv_add_emod x 32
      omega
    have h5 : 0 ≤ x % 32 := Int.emod_nonneg x (by norm_num)
    have h6 : x % 32 < 32 := Int.emod_lt_of_pos x (by norm_num)
    rw [hm]
    split <;> omega

/-- C8.  The chunk resolution shared by `get_block_at`,
`get_block_at_mut` and `set_block_at` implements floor division
(`Int.fdiv`) on both axes, the chunk-local offset is the matching
euclidean remainder, and in particular block (-1, -1) resolves — on
every query, the resolution being a function of the coordinates alone —
to chunk (-1, -1) at offset 1023, a different chunk from block (0, 0)'s
chunk (0, 0) at offset 0. -/
theorem chunk_resolution_floor_division :
    (∀ x y : Int, worldChunkCoords x y = (x.fdiv 32, y.fdiv 32)) ∧
      (∀ x y : Int, chunkLocalOffset x y = ((y % 32) * 32 + x % 32).toNat) ∧
      worldChunkCoords (-1) (-1) = (-1, -1) ∧
      chunkLocalOffset (-1) (-1) = 1023 ∧
      worldChunkCoords 0 0 = (0, 0) ∧
      chunkLocalOffset 0 0 = 0 ∧
      worldChunkCoords (-1) (-1) ≠ worldChunkCoords 0 0 := by
  refine ⟨?_, ?_, by decide, by decide, by decide, by decide, by decide⟩
  · intro x y
    have hx := tdiv32_with_correction x
    have hy := tdiv32_with_correction y
    have hx2 : x.fdiv 32 = x / 32 := Int.fdiv_eq_ediv x (by norm_num)
    have hy2 : y.fdiv 32 = y / 32 := Int.fdiv_eq_ediv y (by norm_num)
    simp only [worldChunkCoords, BLOCKS_PER_CHUNK_X, BLOCKS_PER_CHUNK_Y, Nat.cast_ofNat]
    rw [hx2, hy2, ← hx, ← hy]
  · intro x y
    have hx := tmod32_with_correction x
    have hy := tmod32_with_correction y
    simp only [chunkLocalOffset, BLOCKS_PER_CHUNK_X, BLOCKS_PER_CHUNK_Y, Nat.cast_ofNat]
    rw [hx, hy]

/-! ## Splitter round-robin fairness (C6) -/

/-- Rotating a three-element list is a permutation. -/
theorem perm_rotate3 {α : Type} (a b c : α) : [b, c, a].Perm [a, b, c] :=
  ((List.Perm.swap a c []).cons b).trans (List.Perm.swap a b [c])

/-- C6.  With all three output neighbors accepting, three consecutive
`determine_direction` scans starting at any retained index `l0` choose
`sides_to_pushto[l0 % 3]`, `[l0+1 % 3]`, `[l0+2 % 3]` — the
left-relative, forward and right-relative sides exactly once each in
some rotation — and each scan records index (chosen + 1) % 3, at which
the next scan starts. -/
theorem splitter_round_robin (dir : Direction) (l0 : Nat) :
    determineDirectionScan (fun _ => true) dir l0 =
        some (sideAt dir l0, (l0 + 1) % 3) ∧
      determineDirectionScan (fun _ => true) dir ((l0 + 1) % 3) =
        some (sideAt dir (l0 + 1), (l0 + 2) % 3) ∧
      determineDirectionScan (fun _ => true) dir ((l0 + 2) % 3) =
        some (sideAt dir (l0 + 2), (l0 + 3) % 3) ∧
      [sideAt dir l0, sideAt dir (l0 + 1), sideAt dir (l0 + 2)].Perm
        [dir.next false, dir, dir.next true] := by
  have hside : ∀ k : Nat, sideAt dir (k % 3) = sideAt dir k := by
    intro k
    simp [sideAt, Nat.mod_mod_of_dvd]
  refine ⟨?_, ?_, ?_, ?_⟩
  · simp [determineDirectionScan]
  · simp only [determineDirectionScan, if_pos rfl, hside]
    have : ((l0 + 1) % 3 + 1) % 3 = (l0 + 2) % 3 := by omega
    rw [this]
    simp
  · simp only [determineDirectionScan, if_pos rfl, hside]
    have : ((l0 + 2) % 3 + 1) % 3 = (l0 + 3) % 3 := by omega
    rw [this]
    simp
  · have h3 : l0 % 3 = 0 ∨ l0 % 3 = 1 ∨ l0 % 3 = 2 := by omega
    have e0 : sideAt dir l0 = sideAt dir (l0 % 3) := (hside l0).symm
    have e1 : sideAt dir (l0 + 1) = sideAt dir ((l0 + 1) % 3) := (hside (l0 + 1)).symm
    have e2 : sideAt dir (l0 + 2) = sideAt dir ((l0 + 2) % 3) := (hside (l0 + 2)).symm
    rcases h3 with h | h | h
    · have m1 : (l0 + 1) % 3 = 1 := by omega
      have m2 : (l0 + 2) % 3 = 2 := by omega
      rw [e0, e1, e2, h, m1, m2]
      exact List.Perm.refl _
    · have m1 : (l0 + 1) % 3 = 2 := by omega
      have m2 : (l0 + 2) % 3 = 0 := by omega
      rw [e0, e1, e2, h, m1, m2]
      exact perm_rotate3 (dir.next false) dir (dir.next true)
    · have m1 : (l0 + 1) % 3 = 0 := by omega
      have m2 : (l0 + 2) % 3 = 1 := by omega
      rw [e0, e1, e2, h, m1, m2]
      exact (perm_rotate3 dir (dir.next true) (dir.next false)).trans
        (perm_rotate3 (dir.next false) dir (dir.next true))

/-! ## Inventory capacity and conservation (C5) -/

/-- The head of a dropped list is the indexed entry. -/
theorem headD_drop_eq {α : Type} (l : List α) (n : Nat) (d : α) :
    (l.drop n).headD d = (l.get? n).getD d := by
  induction l generalizing n with
  | nil => cases n <;> rfl
  | cons a t ih =>
    cases n with
    | zero => rfl
    | succ m => exact ih m

/-- `get_item` reads the `slot`-th entry (or `None` out of range). -/
theorem getItem_eq (inv : Inventory) (slot : Nat) :
    inv.getItem slot = (inv.items.get? slot).getD none :=
  headD_drop_eq inv.items slot none

/-- Units of a stack-typed slot. -/
theorem unitsOpt_some_stack (it : Item) (h : it.stackable = true) :
    unitsOpt (some it) = it.meta := by
  simp [unitsOpt, Item.units, h]

/-- Exchanging one slot exchanges its units in the total. -/
theorem sum_units_set (l : List (Option Item)) (i : Nat) (v : Option Item)
    (h : i < l.length) :
    ((l.set i v).map unitsOpt).sum + unitsOpt ((l.get? i).getD none) =
      (l.map unitsOpt).sum + unitsOpt v := by
  induction l generalizing i with
  | nil => simp at h
  | cons a t ih =>
    cases i with
    | zero => simp [List.set]; omega
    | succ n =>
      have hn : n < t.length := by simpa using h
      have := ih n hn
      simp only [List.set, List.map_cons, List.sum_cons, List.get?]
      omega

/-- Setting a slot to an acceptable value keeps all slots acceptable. -/
theorem all_slotOk_set (l : List (Option Item)) (i : Nat) (v : Option Item)
    (hl : l.all slotOk255 = true) (hv : slotOk255 v = true) :
    (l.set i v).all slotOk255 = true := by
  rw [List.all_eq_true] at hl ⊢
  intro x hx
  rcases List.mem_or_eq_of_mem_set hx with hmem | hxe
  · exact hl x hmem
  · rw [hxe]; exact hv

/-- `add_item` with a stack-typed item within the cap: all slots stay
within the cap and units are conserved (held + returned = held before +
inserted). -/
theorem addItem_capacity_conservation (inv : Inventory) (item : Item) (slot : Nat)
    (hstack : item.stackable = true) (hmeta : item.meta ≤ MAX_ITEMS_PER_SLOT)
    (hinv : inv.items.all slotOk255 = true) :
    (inv.addItem item slot).1.items.all slotOk255 = true ∧
      (inv.addItem item slot).1.totalUnits + unitsOpt (inv.addItem item slot).2 =
        inv.totalUnits + item.units ∧
      (inv.addItem item slot).1.items.length = inv.items.length := by
  have hitem : slotOk255 (some item) = true := by
    simp [slotOk255, hstack, hmeta]
  have hunits : item.units = item.meta := by simp [Item.units, hstack]
  by_cases hs : slot < inv.items.length
  · cases hx : inv.getItem slot with
    | none =>
      have hget : (inv.items.get? slot).getD none = none := by rw [← getItem_eq, hx]
      simp only [Inventory.addItem, if_pos hs, hx]
      refine ⟨all_slotOk_set _ _ _ hinv hitem, ?_, by simp⟩
      have hsum := sum_units_set inv.items slot (some item) hs
      rw [hget, unitsOpt_some_stack item hstack,
        show unitsOpt none = 0 from rfl] at hsum
      simp only [Inventory.totalUnits, show unitsOpt none = 0 from rfl, hunits]
      omega
    | some slotItem =>
      have hget : (inv.items.get? slot).getD none = some slotItem := by rw [← getItem_eq, hx]
      have hmem : some slotItem ∈ inv.items := by
        rcases hq : inv.items.get? slot with _ | v
        · rw [hq] at hget; cases hget
        · rw [hq] at hget
          rw [← hget]
          exact List.get?_mem hq
      have hok : slotOk255 (some slotItem) = true := (List.all_eq_true.mp hinv) _ hmem
      have hsi : slotItem.stackable = true ∧ slotItem.meta ≤ MAX_ITEMS_PER_SLOT := by
        simpa [slotOk255, Bool.and_eq_true] using hok
      have hslotunits : unitsOpt (some slotItem) = slotItem.meta :=
        unitsOpt_some_stack slotItem hsi.1
      have hadd : u32add slotItem.meta item.meta = slotItem.meta + item.meta := by
        have hlt : slotItem.meta + item.meta < 4294967296 := by
          have h1 := hsi.2
          simp only [MAX_ITEMS_PER_SLOT] at h1 hmeta
          omega
        simpa [u32add] using Nat.mod_eq_of_lt hlt
      simp only [Inventory.addItem, if_pos hs, hx]
      by_cases hid : slotItem.ident = item.ident ∧ slotItem.stackable = true
      · rw [if_pos hid]
        by_cases hfull : MAX_ITEMS_PER_SLOT ≤ slotItem.meta
        · rw [if_pos hfull]
          refine ⟨hinv, ?_, rfl⟩
          rw [unitsOpt_some_stack item hstack, hunits]
        · rw [if_neg hfull, hadd]
          by_cases hover : MAX_ITEMS_PER_SLOT < slotItem.meta + item.meta
          · rw [if_pos hover]
            have hcap : slotOk255 (some { slotItem with meta := MAX_ITEMS_PER_SLOT }) = true := by
              simp [slotOk255, hsi.1]
            refine ⟨all_slotOk_set _ _ _ hinv hcap, ?_, by simp⟩
            have hsum := sum_units_set inv.items slot
              (some { slotItem with meta := MAX_ITEMS_PER_SLOT }) hs
            rw [hget, hslotunits] at hsum
            have hu1 : unitsOpt (some { slotItem with meta := MAX_ITEMS_PER_SLOT }) =
                MAX_ITEMS_PER_SLOT := unitsOpt_some_stack _ hsi.1
            have hu2 : unitsOpt (some { item with meta := slotItem.meta + item.meta -
                MAX_ITEMS_PER_SLOT }) = slotItem.meta + item.meta - MAX_ITEMS_PER_SLOT :=
              unitsOpt_some_stack _ hstack
            rw [hu1] at hsum
            simp only [Inventory.totalUnits, hu2, hunits]
            omega
          · rw [if_neg hover]
            have hcap : slotOk255 (some { slotItem with meta := slotItem.meta + item.meta }) =
                true := by
              simp only [slotOk255, hsi.1, Bool.true_and, decide_eq_true_eq]
              omega
            refine ⟨all_slotOk_set _ _ _ hinv hcap, ?_, by simp⟩
            have hsum := sum_units_set inv.items slot
              (some { slotItem with meta := slotItem.meta + item.meta }) hs
            rw [hget, hslotunits] at hsum
            have hu1 : unitsOpt (some { slotItem with meta := slotItem.meta + item.meta }) =
                slotItem.meta + item.meta := unitsOpt_some_stack _ hsi.1
            rw [hu1] at hsum
            simp only [Inventory.totalUnits, show unitsOpt (none : Option Item) = 0 from rfl,
              hunits]
            omega
      · rw [if_neg hid]
        refine ⟨all_slotOk_set _ _ _ hinv hitem, ?_, by simp⟩
        have hsum := sum_units_set inv.items slot (some item) hs
        rw [hget, unitsOpt_some_stack item hstack, hslotunits] at hsum
        simp only [Inventory.totalUnits, hslotunits, hunits]
        omega
  · simp only [Inventory.addItem, if_neg hs]
    refine ⟨hinv, ?_, by simp⟩
    rw [unitsOpt_some_stack item hstack, hunits]

/-- The `try_add_item` slot loop with a stack-typed item within the
cap: capacity invariant, unit conservation, and slot count. -/
theorem tryAddLoop_capacity_conservation (ident : Identifier) :
    ∀ (l : List (Option Item)) (item : Item),
      item.stackable = true → item.meta ≤ MAX_ITEMS_PER_SLOT →
      l.all slotOk255 = true →
      (tryAddLoop true ident l item).1.all slotOk255 = true ∧
        ((tryAddLoop true ident l item).1.map unitsOpt).sum +
            unitsOpt (tryAddLoop true ident l item).2 =
          (l.map unitsOpt).sum + item.meta ∧
        (tryAddLoop true ident l item).1.length = l.length := by
  intro l
  induction l with
  | nil =>
    intro item hstack hmeta _
    simp only [tryAddLoop]
    split
    · simp [unitsOpt_some_stack item hstack]
    · rename_i hcond
      have hmeta0 : item.meta = 0 := by
        rcases Nat.eq_zero_or_pos item.meta with h0 | h0
        · exact h0
        · exact absurd ⟨by trivial, h0⟩ hcond
      simp [hmeta0, show unitsOpt none = 0 from rfl]
  | cons slot t ih =>
    intro item hstack hmeta hall
    rw [List.all_cons, Bool.and_eq_true] at hall
    have hallt : t.all slotOk255 = true := hall.2
    have hslot : slotOk255 slot = true := hall.1
    cases slot with
    | none =>
      simp only [tryAddLoop]
      refine ⟨?_, ?_, by simp⟩
      · simp only [List.all_cons, Bool.and_eq_true]
        exact ⟨by simp [slotOk255, hstack, hmeta], hallt⟩
      · simp only [List.map_cons, List.sum_cons, unitsOpt_some_stack item hstack,
          show unitsOpt none = 0 from rfl]
        omega
    | some other =>
      have hsi : other.stackable = true ∧ other.meta ≤ MAX_ITEMS_PER_SLOT := by
        simpa [slotOk255, Bool.and_eq_true] using hslot
      have hou : unitsOpt (some other) = other.meta := unitsOpt_some_stack _ hsi.1
      simp only [tryAddLoop]
      by_cases hide : other.ident = ident
      · rw [if_pos (show other.ident = ident ∧ True from ⟨hide, trivial⟩)]
        by_cases hfull : MAX_ITEMS_PER_SLOT ≤ other.meta
        · rw [if_pos hfull]
          obtain ⟨h1, h2, h3⟩ := ih item hstack hmeta hallt
          refine ⟨?_, ?_, by simpa using h3⟩
          · simp only [List.all_cons, Bool.and_eq_true]
            exact ⟨hslot, h1⟩
          · simp only [List.map_cons, List.sum_cons, hou]
            omega
        · rw [if_neg hfull]
          have hadd : u32add other.meta item.meta = other.meta + item.meta := by
            have hlt : other.meta + item.meta < 4294967296 := by
              have h1 := hsi.2
              simp only [MAX_ITEMS_PER_SLOT] at h1 hmeta
              omega
            simpa [u32add] using Nat.mod_eq_of_lt hlt
          rw [hadd]
          by_cases hover : MAX_ITEMS_PER_SLOT < other.meta + item.meta
          · rw [if_pos hover]
            have hmeta2 : other.meta + item.meta - MAX_ITEMS_PER_SLOT ≤ MAX_ITEMS_PER_SLOT := by
              have := hsi.2
              omega
            obtain ⟨h1, h2, h3⟩ :=
              ih { item with meta := other.meta + item.meta - MAX_ITEMS_PER_SLOT } hstack hmeta2
                hallt
            refine ⟨?_, ?_, by simpa using h3⟩
            · simp only [List.all_cons, Bool.and_eq_true]
              exact ⟨by simp [slotOk255, hsi.1], h1⟩
            · simp only [List.map_cons, List.sum_cons, hou,
                unitsOpt_some_stack { other with meta := MAX_ITEMS_PER_SLOT } hsi.1]
              simp only at h2
              omega
          · rw [if_neg hover]
            refine ⟨?_, ?_, by simp⟩
            · simp only [List.all_cons, Bool.and_eq_true]
              refine ⟨?_, hallt⟩
              simp only [slotOk255, hsi.1, Bool.true_and, decide_eq_true_eq]
              omega
            · simp only [List.map_cons, List.sum_cons, hou,
                unitsOpt_some_stack { other with meta := other.meta + item.meta } hsi.1,
                show unitsOpt none = 0 from rfl]
              omega
      · rw [if_neg (fun hc => hide hc.1)]
        obtain ⟨h1, h2, h3⟩ := ih item hstack hmeta hallt
        refine ⟨?_, ?_, by simpa using h3⟩
        · simp only [List.all_cons, Bool.and_eq_true]
          exact ⟨hslot, h1⟩
        · simp only [List.map_cons, List.sum_cons, hou]
          omega

/-- `try_add_item` with a stack-typed item within the cap. -/
theorem tryAddItem_capacity_conservation (inv : Inventory) (item : Item)
    (hstack : item.stackable = true) (hmeta : item.meta ≤ MAX_ITEMS_PER_SLOT)
    (hinv : inv.items.all slotOk255 = true) :
    (inv.tryAddItem item).1.items.all slotOk255 = true ∧
      (inv.tryAddItem item).1.totalUnits + unitsOpt (inv.tryAddItem item).2 =
        inv.totalUnits + item.units ∧
      (inv.tryAddItem item).1.items.length = inv.items.length := by
  obtain ⟨h1, h2, h3⟩ :=
    tryAddLoop_capacity_conservation item.ident inv.items item hstack hmeta hinv
  have hu : item.units = item.meta := by simp [Item.units, hstack]
  refine ⟨?_, ?_, ?_⟩
  · simpa only [Inventory.tryAddItem, hstack] using h1
  · simpa only [Inventory.tryAddItem, hstack, Inventory.totalUnits, hu] using h2
  · simpa only [Inventory.tryAddItem, hstack] using h3

/-- Any sequence of `add_item`/`try_add_item` calls with stack-typed
items within the cap: the capacity invariant is preserved and units are
conserved across the whole run. -/
theorem runInvOps_capacity_conservation (ops : List InvOp) :
    ∀ (inv : Inventory),
      (∀ op ∈ ops, op.item.stackable = true ∧ op.item.meta ≤ MAX_ITEMS_PER_SLOT) →
      inv.items.all slotOk255 = true →
      (runInvOps inv ops).1.items.all slotOk255 = true ∧
        (runInvOps inv ops).1.totalUnits + (runInvOps inv ops).2.2 =
          inv.totalUnits + (runInvOps inv ops).2.1 := by
  induction ops with
  | nil => intro inv _ hinv; exact ⟨hinv, rfl⟩
  | cons op ops ih =>
    intro inv hops hinv
    have hop := hops op (List.mem_cons_self op ops)
    have hrest : ∀ o ∈ ops, o.item.stackable = true ∧ o.item.meta ≤ MAX_ITEMS_PER_SLOT :=
      fun o ho => hops o (List.mem_cons_of_mem op ho)
    have hstep : (applyInvOp inv op).1.items.all slotOk255 = true ∧
        (applyInvOp inv op).1.totalUnits + unitsOpt (applyInvOp inv op).2 =
          inv.totalUnits + op.item.units := by
      cases op with
      | add it slot =>
        obtain ⟨a, b, _⟩ := addItem_capacity_conservation inv it slot hop.1 hop.2 hinv
        exact ⟨a, b⟩
      | tryAdd it =>
        obtain ⟨a, b, _⟩ := tryAddItem_capacity_conservation inv it hop.1 hop.2 hinv
        exact ⟨a, b⟩
    obtain ⟨h1, h2⟩ := ih (applyInvOp inv op).1 hrest hstep.1
    have h3 := hstep.2
    simp only [runInvOps]
    exact ⟨h1, by omega⟩

/-- C5 counterexample.  A single `add_item` of a stack-typed item with
metadata 300 into an empty slot stores it unchanged: the slot's stack
metadata exceeds 255. -/
theorem inventory_overcap_counterexample :
    (runInvOps (Inventory.new 1 false) [.add (coalItem 300) 0]).1.items =
        [some (coalItem 300)] ∧
      (coalItem 300).stackable = true ∧ MAX_ITEMS_PER_SLOT < (coalItem 300).meta := by
  refine ⟨by decide, by decide, by decide⟩

/-- C5 amended.  For every sequence of `add_item`/`try_add_item` calls
on a fresh size-`N` machine inventory whose inserted items are
stack-typed (as every registered item kind is) with metadata ≤ 255: no
slot ever holds a stack above 255, and the units held afterwards are
exactly the units inserted minus the units returned to the callers —
nothing is silently discarded. -/
theorem inventory_capacity_conservation (size : Nat) (ops : List InvOp)
    (hops : ∀ op ∈ ops, op.item.stackable = true ∧ op.item.meta ≤ MAX_ITEMS_PER_SLOT) :
    (∀ slot ∈ (runInvOps (Inventory.new size false) ops).1.items,
        slotOk255 slot = true) ∧
      (runInvOps (Inventory.new size false) ops).1.totalUnits +
          (runInvOps (Inventory.new size false) ops).2.2 =
        (runInvOps (Inventory.new size false) ops).2.1 := by
  have hnew : (Inventory.new size false).items.all slotOk255 = true := by
    rw [List.all_eq_true]
    intro x hx
    rw [List.eq_of_mem_replicate hx]
    rfl
  have htot : (Inventory.new size false).totalUnits = 0 := by
    simp [Inventory.totalUnits, Inventory.new, List.map_replicate,
      show unitsOpt none = 0 from rfl]
  obtain ⟨h1, h2⟩ := runInvOps_capacity_conservation ops (Inventory.new size false) hops hnew
  rw [htot] at h2
  exact ⟨List.all_eq_true.mp h1, by omega⟩

/-- C5 witness: adding 200 then try-adding 100 coal to a 1-slot
inventory caps the slot at 255 and returns 45 units. -/
theorem inventory_capacity_conservation_witness :
    (∀ op ∈ [InvOp.add (coalItem 200) 0, InvOp.tryAdd (coalItem 100)],
        op.item.stackable = true ∧ op.item.meta ≤ MAX_ITEMS_PER_SLOT) ∧
      ((∀ slot ∈ (runInvOps (Inventory.new 1 false)
            [InvOp.add (coalItem 200) 0, InvOp.tryAdd (coalItem 100)]).1.items,
          slotOk255 slot = true) ∧
        (runInvOps (Inventory.new 1 false)
              [InvOp.add (coalItem 200) 0, InvOp.tryAdd (coalItem 100)]).1.totalUnits +
            (runInvOps (Inventory.new 1 false)
              [InvOp.add (coalItem 200) 0, InvOp.tryAdd (coalItem 100)]).2.2 =
          (runInvOps (Inventory.new 1 false)
            [InvOp.add (coalItem 200) 0, InvOp.tryAdd (coalItem 100)]).2.1) :=
  ⟨by decide, inventory_capacity_conservation 1 _ (by decide)⟩

/-! ## Tunnel pairing (C7) -/

/-- Modifying index `n` rewrites exactly that read. -/
theorem get?_modify_self {α : Type} (f : α → α) (n : Nat) (l : List α) :
    (l.modify f n).get? n = (l.get? n).map f := by
  induction l generalizing n with
  | nil => cases n <;> rfl
  | cons a t ih =>
    cases n with
    | zero => simp [List.modify_zero_cons]
    | succ m => simp [List.modify_succ_cons, ih m]

/-- Updating a key of the chunk map rewrites exactly that lookup. -/
theorem assocFind_update (chunks : List ((Int × Int) × Chunk)) (key : Int × Int)
    (f : Chunk → Chunk) :
    assocFind (assocUpdate chunks key f) key = (assocFind chunks key).map f := by
  induction chunks with
  | nil => rfl
  | cons kv t ih =>
    by_cases h : kv.1 = key
    · simp [assocUpdate, assocFind, h]
    · simp [assocUpdate, assocFind, h, ih]

/-- A cell mutation through `get_block_at_mut` is visible to the next
`get_block_at` of the same coordinate, all else (position metadata
included) unchanged. -/
theorem getBlockAt_updateBlockAt_self (w : World) (x y : Int)
    (f : Direction × BlockState → Direction × BlockState) (st : BlockState)
    (m : ChunkBlockMetadata) (h : w.getBlockAt x y = some (st, m)) :
    (w.updateBlockAt x y f).getBlockAt x y =
      some ((f (m.direction, st)).2, ⟨m.position, (f (m.direction, st)).1⟩) := by
  rcases hfind : assocFind w.chunks (worldChunkCoords x y) with _ | c
  · simp only [World.getBlockAt, hfind] at h
    exact Option.noConfusion h
  · rcases hcell : c.getBlockAt x y with _ | cell
    · simp only [World.getBlockAt, hfind, hcell] at h
      exact Option.noConfusion h
    · simp only [World.getBlockAt, hfind, hcell, Option.some.injEq] at h
      rw [Prod.ext_iff] at h
      obtain ⟨hst, hm⟩ := h
      dsimp only at hst hm
      have hfind2 : assocFind (assocUpdate w.chunks (worldChunkCoords x y)
          (fun c => ⟨c.blocks.modify f (chunkLocalOffset x y), c.chunkX, c.chunkY⟩))
          (worldChunkCoords x y) =
          some ⟨c.blocks.modify f (chunkLocalOffset x y), c.chunkX, c.chunkY⟩ := by
        rw [assocFind_update, hfind]
        rfl
      have hcell2 : (Chunk.mk (c.blocks.modify f (chunkLocalOffset x y)) c.chunkX
          c.chunkY).getBlockAt x y = some (f cell) := by
        show (c.blocks.modify f (chunkLocalOffset x y)).get? (chunkLocalOffset x y) = _
        rw [get?_modify_self]
        show (c.getBlockAt x y).map f = _
        rw [hcell]
        rfl
      simp only [World.updateBlockAt, World.getBlockAt, hfind2, hcell2]
      rw [← hst, ← hm]

set_option maxRecDepth 100000 in
/-- C7 counterexample.  In `tunnelWorld` the nearest unlinked same-facing
tunnel along the new tunnel's facing is 1 tile ahead at (7, 9), but
placement scans offsets −7..7 starting at −7 and links the tunnel 7
tiles behind at (7, 17) instead. -/
theorem tunnel_links_backward_first :
    tunnelPlacement.1 = .tunnel (Inventory.new 1 false) .north (.pushing ⟨7, 17⟩) ∧
      TunnelType.pushing ⟨7, 17⟩ ≠ TunnelType.pushing ⟨7, 9⟩ ∧
      tunnelWorld.getBlockAt 7 9 =
        some (.tunnel (Inventory.new 1 false) .north .none, ⟨⟨7, 9⟩, .north⟩) := by
  refine ⟨by decide, by decide, by decide⟩

set_option maxRecDepth 100000 in
/-- C7 amended.  Placement scans offsets −7..=7 (0 excluded) along the
facing axis in increasing order and links the first tunnel-identified
same-facing block found — regardless of distance sign or of an existing
link — the new block becoming `Pushing` toward it and the found block
`Receiving`; and dismantling a linked tunnel resets its partner (when
the partner cell holds a tunnel) to unlinked. -/
theorem tunnel_link_and_dismantle (w : World) (q : Vec2i) (inv2 : Inventory)
    (a2 : Direction) (t2 : TunnelType) (m : ChunkBlockMetadata)
    (hq : w.getBlockAt q.x q.y = some (.tunnel inv2 a2 t2, m)) :
    tunnelPlacement.1 = .tunnel (Inventory.new 1 false) .north (.pushing ⟨7, 17⟩) ∧
      (tunnelPlacement.2.getBlockAt 7 17).map (fun p => p.1) =
        some (.tunnel (Inventory.new 1 false) .north (.receiving ⟨7, 10⟩)) ∧
      ((tunnelOnAfterDismantle (.pushing q) w).getBlockAt q.x q.y).map (fun p => p.1) =
        some (.tunnel inv2 a2 .none) ∧
      ((tunnelOnAfterDismantle (.receiving q) w).getBlockAt q.x q.y).map (fun p => p.1) =
        some (.tunnel inv2 a2 .none) := by
  have hreset : ∀ tt : TunnelType, tunnelOnAfterDismantle tt w =
      (match tt with
        | .none => w
        | .pushing vec | .receiving vec =>
          w.updateBlockAt vec.x vec.y (fun cell =>
            match cell.2 with
            | .tunnel oInv oAnim _ => (cell.1, .tunnel oInv oAnim .none)
            | _ => cell)) := fun _ => rfl
  refine ⟨by decide, by decide, ?_, ?_⟩
  · rw [hreset]
    rw [getBlockAt_updateBlockAt_self w q.x q.y _ _ _ hq]
    rfl
  · rw [hreset]
    rw [getBlockAt_updateBlockAt_self w q.x q.y _ _ _ hq]
    rfl

set_option maxRecDepth 100000 in
/-- C7 witness: dismantling the freshly placed pushing tunnel resets the
receiving end at (7, 17). -/
theorem tunnel_link_and_dismantle_witness :
    tunnelPlacement.2.getBlockAt 7 17 =
        some (.tunnel (Inventory.new 1 false) .north (.receiving ⟨7, 10⟩),
          ⟨⟨7, 17⟩, .north⟩) ∧
      ((tunnelOnAfterDismantle (.pushing ⟨7, 17⟩) tunnelPlacement.2).getBlockAt 7 17).map
          (fun p => p.1) =
        some (.tunnel (Inventory.new 1 false) .north .none) :=
  ⟨by decide,
    (tunnel_link_and_dismantle tunnelPlacement.2 ⟨7, 17⟩ (Inventory.new 1 false) .north
      (.receiving ⟨7, 10⟩) ⟨⟨7, 17⟩, .north⟩ (by decide)).2.2.1⟩

/-! ## The off-by-one in `try_read_elements` (C10) -/

/-- `tryTake` succeeds exactly on strictly-shorter reads, taking the
prefix. -/
theorem tryTake_eq (k : Nat) (s : Bytes) :
    tryTake k s = if k < s.length then some (s.take k, s.drop k) else none := by
  induction k generalizing s with
  | zero =>
    cases s with
    | nil => rfl
    | cons b t => simp [tryTake]
  | succ n ih =>
    cases s with
    | nil => rfl
    | cons b t =>
      simp only [tryTake, ih t, List.length_cons]
      by_cases h : n < t.length
      · rw [if_pos h, if_pos (by omega)]
        rfl
      · rw [if_neg h, if_neg (by omega)]
        rfl

/-- Inversion of a successful deserialization step. -/
theorem DRes.bind_ok {α β : Type} {r : DRes α} {f : α → Bytes → DRes β} {v : β}
    {rest : Bytes} (h : DRes.bind r f = .ok v rest) :
    ∃ a mid, r = .ok a mid ∧ f a mid = .ok v rest := by
  cases r with
  | ok a mid => exact ⟨a, mid, rfl, h⟩
  | err e => exact absurd h (by simp [DRes.bind])
  | panicked => exact absurd h (by simp [DRes.bind])

/-- C10.  `Buffer::try_read_elements(k)` on a buffer of `n` bytes at
position `p` succeeds exactly when `p + k < n` (strictly), returning
the `k` bytes at `p`; a read that ends exactly at the last byte fails
with `NotEnoughSpace` — so the final byte can never be consumed by it,
and the suffix embedding the deserializers run on (`tryTake` over the
unread bytes) agrees with it; consequently `load_game` succeeds only
with at least one unread byte left after the player inventory. -/
theorem try_read_elements_off_by_one :
    (∀ (b : Buffer) (k : Nat),
        (b.tryReadElements k).1.isOk = true ↔ b.pos + k < b.data.length) ∧
      (∀ (b : Buffer) (k : Nat), b.pos + k = b.data.length →
        (b.tryReadElements k).1 = .error .notEnoughSpace) ∧
      (∀ (b : Buffer) (k : Nat), b.pos + k < b.data.length →
        (b.tryReadElements k).1 = .ok ((b.data.drop b.pos).take k)) ∧
      (∀ (b : Buffer) (k : Nat), b.pos ≤ b.data.length →
        tryTake k (b.data.drop b.pos) =
          match (b.tryReadElements k).1 with
          | .ok bs => some (bs, b.data.drop (b.pos + k))
          | .error _ => none) ∧
      (∀ (s : Bytes) (v : World × Inventory × Nat) (rest : Bytes),
        loadGame s = .ok v rest → 1 ≤ rest.length) := by
  have hok : ∀ (b : Buffer) (k : Nat),
      (b.tryReadElements k).1.isOk = true ↔ b.pos + k < b.data.length := by
    intro b k
    simp only [Buffer.tryReadElements]
    by_cases h : b.data.length ≤ b.pos + k
    · rw [if_pos h]
      simp [Except.isOk, Except.toBool]
      omega
    · rw [if_neg h]
      simp [Except.isOk, Except.toBool]
      omega
  refine ⟨hok, ?_, ?_, ?_, ?_⟩
  · intro b k h
    simp only [Buffer.tryReadElements]
    rw [if_pos (by omega)]
  · intro b k h
    simp only [Buffer.tryReadElements]
    rw [if_neg (by omega)]
    have e : b.pos + k - k = b.pos := by omega
    rw [e]
  · intro b k hple
    simp only [Buffer.tryReadElements]
    by_cases h : b.data.length ≤ b.pos + k
    · rw [if_pos h, tryTake_eq]
      rw [if_neg (by simp only [List.length_drop]; omega)]
    · rw [if_neg h, tryTake_eq]
      rw [if_pos (by simp only [List.length_drop]; omega)]
      have e : b.pos + k - k = b.pos := by omega
      rw [e, List.drop_drop]
  · intro s v rest h
    simp only [loadGame] at h
    by_cases h1 : s.length < 8
    · rw [if_pos h1] at h
      exact absurd h (by simp)
    rw [if_neg h1] at h
    by_cases h2 : s.length ≤ 8
    · rw [if_pos h2] at h
      exact absurd h (by simp)
    rw [if_neg h2] at h
    by_cases h3 : s.take 8 ≠ SIGNATURE
    · rw [if_pos h3] at h
      exact absurd h (by simp)
    rw [if_neg h3] at h
    obtain ⟨a1, m1, _, h⟩ := DRes.bind_ok h
    obtain ⟨a2, m2, _, h⟩ := DRes.bind_ok h
    obtain ⟨a3, m3, _, h⟩ := DRes.bind_ok h
    obtain ⟨a4, m4, _, h⟩ := DRes.bind_ok h
    by_cases h4 : m4.length < 1
    · rw [if_pos h4] at h
      exact absurd h (by simp)
    · rw [if_neg h4] at h
      cases h
      omega

/-- C10 witness: a minimal save file with one trailing byte loads, and
the characterization instantiates at a two-byte buffer. -/
theorem try_read_elements_off_by_one_witness :
    loadGame minimalSave = .ok (World.new 0 0, Inventory.new 0 false, 0) [0] ∧
      (1 : Nat) ≤ [(0 : Nat)].length ∧
      (Buffer.tryReadElements ⟨[7, 7], 0⟩ 1).1.isOk = true ∧
      (Buffer.tryReadElements ⟨[7, 7], 0⟩ 2).1 = .error .notEnoughSpace := by
  have hload : loadGame minimalSave = .ok (World.new 0 0, Inventory.new 0 false, 0) [0] := by
    decide
  refine ⟨hload, ?_, ?_, ?_⟩
  · exact try_read_elements_off_by_one.2.2.2.2 minimalSave _ [0] hload
  · exact (try_read_elements_off_by_one.1 ⟨[7, 7], 0⟩ 1).mpr (by decide)
  · exact try_read_elements_off_by_one.2.1 ⟨[7, 7], 0⟩ 2 (by decide)

/-! ## load_game panic (C9) -/

/-- C9.  Loading the 8-byte file consisting of exactly the `PN2S_SAV`
signature panics inside `Buffer::read_elements` instead of returning a
typed `SerializationError`: the length guard admits 8 bytes but
`read_elements(8)` treats an exactly-consumed buffer as the panic case. -/
theorem load_game_sig_only_panics : loadGame SIGNATURE = .panicked := by decide

end PN2

namespace PN2

/-! ## Round-trip lemmas for the serialization framework (C1, C2)

Each lemma has the shape `deserX (serX v ++ rest) = .ok v rest` for
well-formed `v` and nonempty `rest` — nonemptiness is forced by the
strict `try_read_elements` bound (C10): every parse's final read must
leave at least one byte. -/

theorem natToLE_length (k n : Nat) : (natToLE k n).length = k := by
  induction k generalizing n with
  | zero => rfl
  | succ m ih => simp [natToLE, ih]

theorem leToNat_natToLE (k n : Nat) : leToNat (natToLE k n) = n % 256 ^ k := by
  induction k generalizing n with
  | zero => simp [natToLE, leToNat, Nat.mod_one]
  | succ m ih =>
    simp only [natToLE, leToNat, ih]
    have h256 : (256 : Nat) ^ (m + 1) = 256 * 256 ^ m := by ring
    rw [h256, Nat.mod_mul]
    omega

theorem tryTake_append (bs rest : Bytes) (h : rest ≠ []) :
    tryTake bs.length (bs ++ rest) = some (bs, rest) := by
  rw [tryTake_eq]
  have hlen : bs.length < (bs ++ rest).length := by
    simp only [List.length_append]
    cases rest with
    | nil => exact absurd rfl h
    | cons a t => simp
  rw [if_pos hlen, List.take_left, List.drop_left]

theorem tryTake_append_len (k : Nat) (bs rest : Bytes) (hk : bs.length = k)
    (h : rest ≠ []) : tryTake k (bs ++ rest) = some (bs, rest) := by
  subst hk
  exact tryTake_append bs rest h

theorem deserNat_ser (k n : Nat) (rest : Bytes) (h : rest ≠ []) :
    deserNat k (natToLE k n ++ rest) = .ok (n % 256 ^ k) rest := by
  simp only [deserNat]
  rw [tryTake_append_len k (natToLE k n) rest (natToLE_length k n) h]
  simp [leToNat_natToLE]

theorem deserNat_ser_lt (k n : Nat) (rest : Bytes) (h : rest ≠ []) (hn : n < 256 ^ k) :
    deserNat k (natToLE k n ++ rest) = .ok n rest := by
  rw [deserNat_ser k n rest h, Nat.mod_eq_of_lt hn]

theorem i32bits_lt (z : Int) : i32bits z < 4294967296 := by
  simp only [i32bits]
  have h1 : z % 4294967296 < 4294967296 := Int.emod_lt_of_pos z (by norm_num)
  have h2 : 0 ≤ z % 4294967296 := Int.emod_nonneg z (by norm_num)
  omega

theorem i32ofBits_i32bits (z : Int) (h1 : -2147483648 ≤ z) (h2 : z < 2147483648) :
    i32ofBits (i32bits z) = z := by
  simp only [i32bits, i32ofBits]
  have h3 : z % 4294967296 < 4294967296 := Int.emod_lt_of_pos z (by norm_num)
  have h4 : 0 ≤ z % 4294967296 := Int.emod_nonneg z (by norm_num)
  have h5 : 4294967296 * (z / 4294967296) + z % 4294967296 = z := Int.ediv_add_emod z 4294967296
  have h6 : z / 4294967296 = 0 ∨ z / 4294967296 = -1 := by omega
  rcases h6 with h6 | h6 <;> rw [h6] at h5 <;> split <;> omega

theorem deserI32_ser (z : Int) (rest : Bytes) (h : rest ≠ [])
    (hz : i32InRange z = true) : deserI32 (serI32 z ++ rest) = .ok z rest := by
  simp only [i32InRange, Bool.and_eq_true, decide_eq_true_eq] at hz
  simp only [deserI32, serI32]
  rw [tryTake_append_len 4 (natToLE 4 (i32bits z)) rest (natToLE_length ..) h]
  dsimp only
  rw [leToNat_natToLE]
  rw [Nat.mod_eq_of_lt (by have := i32bits_lt z; norm_num; omega)]
  rw [i32ofBits_i32bits z hz.1 hz.2]

theorem deserBool_ser (b : Bool) (rest : Bytes) (h : rest ≠ []) :
    deserBool (serBool b ++ rest) = .ok b rest := by
  simp only [deserBool, serBool]
  rw [tryTake_append_len 1 [if b = true then 1 else 0] rest (by cases b <;> rfl) h]
  cases b <;> rfl

theorem deserBoolOrPanic_ser (b : Bool) (rest : Bytes) (h : rest ≠ []) :
    deserBoolOrPanic (serBool b ++ rest) = .ok b rest := by
  simp only [deserBoolOrPanic, deserBool_ser b rest h]

theorem deserDirection_ser (d : Direction) (rest : Bytes) (h : rest ≠ []) :
    deserDirection (serDirection d ++ rest) = .ok d rest := by
  simp only [deserDirection, serDirection]
  rw [deserNat_ser_lt 1 d.toU8 rest h (by cases d <;> decide)]
  cases d <;> rfl

theorem trap_ser (t : Trap) (rest : Bytes) :
    t.tryDeserialize (serTrapTag t ++ rest) = .ok () rest := by
  simp [Trap.tryDeserialize, serTrapTag, readByte]

theorem deserCount_ser {α : Type} (d : Deser α) (ser : α → Bytes) (rt : α → α)
    (l : List α)
    (helem : ∀ a ∈ l, ∀ rest : Bytes, rest ≠ [] → d (ser a ++ rest) = .ok (rt a) rest) :
    ∀ rest : Bytes, rest ≠ [] →
      deserCount d l.length ((l.map ser).flatten ++ rest) = .ok (l.map rt) rest := by
  induction l with
  | nil => intro rest h; rfl
  | cons a t ih =>
    intro rest h
    have hne : (t.map ser).flatten ++ rest ≠ [] := by
      intro hc
      rcases List.append_eq_nil.mp hc with ⟨_, h2⟩
      exact h h2
    simp only [List.map_cons, List.flatten_cons, List.length_cons, List.append_assoc]
    simp only [deserCount, helem a (List.mem_cons_self a t) _ hne, DRes.bind]
    rw [ih (fun b hb => helem b (List.mem_cons_of_mem a hb)) rest h]

theorem deserVec_ser {α : Type} (d : Deser α) (ser : α → Bytes) (rt : α → α)
    (l : List α) (hlen : l.length < 18446744073709551616)
    (helem : ∀ a ∈ l, ∀ rest : Bytes, rest ≠ [] → d (ser a ++ rest) = .ok (rt a) rest)
    (rest : Bytes) (h : rest ≠ []) :
    deserVec d (serVec ser l ++ rest) = .ok (l.map rt) rest := by
  have hne1 : (l.map ser).flatten ++ rest ≠ [] := by
    intro hc
    rcases List.append_eq_nil.mp hc with ⟨_, h2⟩
    exact h h2
  have hne2 : serNat 8 l.length ++ ((l.map ser).flatten ++ rest) ≠ [] := by
    simp [serNat, natToLE]
  simp only [deserVec, serVec, List.append_assoc, trap_ser, DRes.bind]
  simp only [serNat] at *
  rw [deserNat_ser_lt 8 l.length _ hne1 (by norm_num; omega)]
  simp only [DRes.bind]
  exact deserCount_ser d ser rt l helem rest h

theorem deserOption_ser {α : Type} (d : Deser α) (ser : α → Bytes) (rt : α → α)
    (o : Option α)
    (helem : ∀ a, o = some a → ∀ rest : Bytes, rest ≠ [] → d (ser a ++ rest) = .ok (rt a) rest)
    (rest : Bytes) (h : rest ≠ []) :
    deserOption d (serOption ser o ++ rest) = .ok (o.map rt) rest := by
  cases o with
  | none =>
    simp only [serOption, deserOption, List.append_assoc, trap_ser, DRes.bind]
    rw [deserBool_ser false rest h]
    rfl
  | some a =>
    have hne : ser a ++ rest ≠ [] := by
      intro hc
      rcases List.append_eq_nil.mp hc with ⟨_, h2⟩
      exact h h2
    simp only [serOption, deserOption, List.append_assoc, trap_ser, DRes.bind]
    rw [deserBool_ser true _ hne]
    simp only [DRes.bind, if_pos rfl]
    rw [helem a rfl rest h]
    rfl

end PN2

namespace PN2

/-! ### Strings, identifiers, items, inventories on the wire -/

theorem deserString_ser (gs : GlobalString) (hwf : strBytesWF gs = true)
    (rest : Bytes) (h : rest ≠ []) :
    deserString (serString gs ++ rest) = .ok gs rest := by
  simp only [strBytesWF, Bool.and_eq_true, List.all_eq_true, decide_eq_true_eq] at hwf
  obtain ⟨hvalid, hbytes, hlen⟩ := hwf
  have helem : ∀ b ∈ gs, ∀ rest : Bytes, rest ≠ [] →
      deserNat 1 ([b % 256] ++ rest) = .ok b rest := by
    intro b hb rest h
    have : [b % 256] = natToLE 1 b := by simp [natToLE]
    rw [this, deserNat_ser_lt 1 b rest h (by have := hbytes b hb; omega)]
  simp only [deserString, serString, deserString.deserVecU8, List.append_assoc, trap_ser,
    DRes.bind]
  rw [deserVec_ser (deserNat 1) (fun b => [b % 256]) id gs hlen helem rest h]
  simp only [List.map_id, DRes.bind]
  rw [if_pos hvalid]

theorem deserIdent_ser (id : Identifier) (hwf : IdentWF id = true)
    (rest : Bytes) (h : rest ≠ []) :
    deserIdent (serIdent id ++ rest) = .ok id rest := by
  simp only [IdentWF, Bool.and_eq_true] at hwf
  have hne : serString id.minor ++ rest ≠ [] := by
    intro hc
    rcases List.append_eq_nil.mp hc with ⟨_, h2⟩
    exact h h2
  simp only [deserIdent, serIdent, List.append_assoc]
  rw [deserString_ser id.major hwf.1 _ hne]
  simp only [DRes.bind]
  rw [deserString_ser id.minor hwf.2 rest h]

/-- Every registered item template is stack-typed with a well-formed
identifier. -/
theorem ITEMS_wf : ∀ t ∈ ITEMS, t.stackable = true ∧ IdentWF t.ident = true := by
  decide

theorem getItemById_spec (id : Identifier) (t : Item) (h : getItemById id = some t) :
    t.ident = id ∧ t.stackable = true ∧ IdentWF id = true := by
  have h2 : ITEMS.find? (fun item => decide (item.ident = id)) = some t := h
  have hmem : t ∈ ITEMS := List.mem_of_find?_eq_some h2
  have hpred := List.find?_some h2
  simp only [decide_eq_true_eq] at hpred
  have hid : t.ident = id := hpred
  obtain ⟨hstack, hwf⟩ := ITEMS_wf t hmem
  exact ⟨hid, hstack, hid ▸ hwf⟩

theorem deserItem_ser (it : Item) (hwf : ItemWF it = true) (rest : Bytes) (h : rest ≠ []) :
    deserItem (serItem it ++ rest) = .ok it rest := by
  simp only [ItemWF, Bool.and_eq_true, decide_eq_true_eq, Option.isSome_iff_exists] at hwf
  obtain ⟨⟨t, ht⟩, hstack, hmeta⟩ := hwf
  obtain ⟨hid, htstack, hidwf⟩ := getItemById_spec it.ident t ht
  have hne : natToLE 4 it.meta ++ rest ≠ [] := by simp [natToLE]
  simp only [deserItem, serItem, List.append_assoc, trap_ser, DRes.bind, serNat]
  rw [deserIdent_ser it.ident hidwf _ hne]
  simp only [DRes.bind, ht]
  rw [deserNat_ser_lt 4 it.meta rest h (by norm_num; omega)]
  simp only [DRes.bind]
  cases t with
  | mk tid tmeta tstack =>
    cases it with
    | mk iid imeta istack =>
      dsimp only at hid htstack hstack
      rw [hid, htstack, hstack]

theorem deserInventory_ser (inv : Inventory) (hwf : InvWF inv = true)
    (rest : Bytes) (h : rest ≠ []) :
    deserInventory (serInventory inv ++ rest) = .ok inv rest := by
  simp only [InvWF, Bool.and_eq_true, List.all_eq_true, decide_eq_true_eq] at hwf
  obtain ⟨hlen, hitems⟩ := hwf
  have hne : serBool inv.isPlayer ++ rest ≠ [] := by
    intro hc
    rcases List.append_eq_nil.mp hc with ⟨_, h2⟩
    exact h h2
  have helem : ∀ o ∈ inv.items, ∀ rest : Bytes, rest ≠ [] →
      deserOption deserItem (serOption serItem o ++ rest) = .ok (o.map id) rest := by
    intro o ho rest h
    refine deserOption_ser deserItem serItem id o ?_ rest h
    intro a ha rest h
    have : ItemWF a = true := by
      have := hitems o ho
      rw [ha] at this
      simpa [slotWF] using this
    simpa using deserItem_ser a this rest h
  simp only [deserInventory, serInventory, List.append_assoc]
  rw [deserVec_ser (deserOption deserItem) (serOption serItem) (Option.map id) inv.items hlen
    helem _ hne]
  simp only [DRes.bind]
  rw [deserBool_ser inv.isPlayer rest h]
  simp only [DRes.bind, List.map_map]
  congr 1
  have : inv.items.map (Option.map id) = inv.items := by
    simp [Option.map_id]
  rw [show (Inventory.mk (inv.items.map (Option.map id)) inv.isPlayer) = inv by
    rw [this]]

end PN2

namespace PN2

/-! ### Blocks on the wire -/

/-- A single-slot machine inventory is exactly `[slot 0]`. -/
theorem inv1_eq (inv : Inventory) (hwf : Inv1WF inv = true) :
    inv = ⟨[inv.getItem 0], false⟩ ∧ slotWF (inv.getItem 0) = true := by
  simp only [Inv1WF, Bool.and_eq_true, decide_eq_true_eq, List.all_eq_true] at hwf
  obtain ⟨hlen, hplayer, hitems⟩ := hwf
  cases inv with
  | mk items isPlayer =>
    dsimp only at hlen hplayer hitems ⊢
    subst hplayer
    cases items with
    | nil => simp at hlen
    | cons o t =>
      cases t with
      | nil => exact ⟨rfl, hitems o (List.mem_cons_self o [])⟩
      | cons o2 t2 => simp at hlen

theorem blockPayloadDeser_container (tinv : Inventory) (s : Bytes) :
    blockPayloadDeser (.storageContainer tinv) s =
      DRes.bind (deserInventory s) fun inv s1 => .ok (.storageContainer inv) s1 := rfl

theorem blockPayloadDeser_extractor (tinv : Inventory) (s : Bytes) :
    blockPayloadDeser (.extractor tinv) s =
      DRes.bind (deserOption deserItem s) fun item s1 =>
        .ok (.extractor ⟨[item], false⟩) s1 := rfl

theorem blockPayloadDeser_conveyor (tinv : Inventory) (td : Direction) (s : Bytes) :
    blockPayloadDeser (.conveyor tinv td) s =
      (DRes.bind (deserOption deserItem s) fun item s1 =>
        DRes.bind (deserDirection s1) fun dir s2 =>
        .ok (.conveyor ⟨[item], false⟩ dir) s2) := rfl

theorem blockPayloadDeser_splitter (tinv : Inventory) (tl : Nat) (tc : Option Direction)
    (s : Bytes) :
    blockPayloadDeser (.splitter tinv tl tc) s =
      DRes.bind (deserOption deserItem s) fun item s1 =>
        .ok (.splitter ⟨[item], false⟩ 0 none) s1 := rfl

theorem deserBlock_ser (st : BlockState) (hwf : BlockWF st = true) (rest : Bytes)
    (h : rest ≠ []) : deserBlock (serBlock st ++ rest) = .ok (blockRT st) rest := by
  cases st with
  | empty =>
    have hser : serBlock .empty = serTrapTag .block ++ (serBool true ++ []) := by decide
    rw [hser]
    simp only [List.append_assoc, List.nil_append, deserBlock, trap_ser, DRes.bind,
      deserBoolOrPanic_ser true rest h]
    rfl
  | resourceNodeBrown =>
    have hser : serBlock .resourceNodeBrown =
        serTrapTag .block ++ (serBool false ++ (serIdent BLOCK_RESOURCE_NODE_BROWN ++ [])) := by
      decide
    have hidwf : IdentWF BLOCK_RESOURCE_NODE_BROWN = true := by decide
    have hreg : getBlockById BLOCK_RESOURCE_NODE_BROWN = some .resourceNodeBrown := by decide
    have hne2 : serIdent BLOCK_RESOURCE_NODE_BROWN ++ rest ≠ [] := by
      intro hc
      rcases List.append_eq_nil.mp hc with ⟨_, h2⟩
      exact h h2
    rw [hser]
    simp only [List.append_assoc, List.nil_append, deserBlock, trap_ser, DRes.bind,
      deserBoolOrPanic_ser false _ hne2]
    simp only [Bool.false_eq_true, if_false, deserIdent_ser _ hidwf rest h, DRes.bind, hreg]
    rfl
  | storageContainer inv =>
    have hser : serBlock (.storageContainer inv) =
        serTrapTag .block ++ (serBool false ++ (serIdent BLOCK_STORAGE_CONTAINER ++
          serInventory inv)) := rfl
    have hidwf : IdentWF BLOCK_STORAGE_CONTAINER = true := by decide
    have hreg : getBlockById BLOCK_STORAGE_CONTAINER =
        some (.storageContainer (Inventory.new (5 * 9) false)) := by decide
    have hinvwf : InvWF inv = true := hwf
    have hne3 : serInventory inv ++ rest ≠ [] := by
      intro hc
      rcases List.append_eq_nil.mp hc with ⟨_, h2⟩
      exact h h2
    have hne2 : serIdent BLOCK_STORAGE_CONTAINER ++ (serInventory inv ++ rest) ≠ [] := by
      intro hc
      rcases List.append_eq_nil.mp hc with ⟨_, h2⟩
      exact hne3 h2
    rw [hser]
    simp only [List.append_assoc, deserBlock, trap_ser, DRes.bind,
      deserBoolOrPanic_ser false _ hne2]
    simp only [Bool.false_eq_true, if_false, deserIdent_ser _ hidwf _ hne3, DRes.bind, hreg]
    rw [blockPayloadDeser_container, deserInventory_ser inv hinvwf rest h]
    rfl
  | extractor inv =>
    obtain ⟨hinv, hslot⟩ := inv1_eq inv hwf
    have hser : serBlock (.extractor inv) =
        serTrapTag .block ++ (serBool false ++ (serIdent BLOCK_EXTRACTOR ++
          serOption serItem (inv.getItem 0))) := rfl
    have hidwf : IdentWF BLOCK_EXTRACTOR = true := by decide
    have hreg : getBlockById BLOCK_EXTRACTOR = some (.extractor (Inventory.new 1 false)) := by
      decide
    have hne3 : serOption serItem (inv.getItem 0) ++ rest ≠ [] := by
      intro hc
      rcases List.append_eq_nil.mp hc with ⟨_, h2⟩
      exact h h2
    have hne2 : serIdent BLOCK_EXTRACTOR ++ (serOption serItem (inv.getItem 0) ++ rest) ≠ [] := by
      intro hc
      rcases List.append_eq_nil.mp hc with ⟨_, h2⟩
      exact hne3 h2
    have hopt : deserOption deserItem (serOption serItem (inv.getItem 0) ++ rest) =
        .ok ((inv.getItem 0).map id) rest := by
      refine deserOption_ser deserItem serItem id (inv.getItem 0) ?_ rest h
      intro a ha rest h
      rw [ha] at hslot
      simpa using deserItem_ser a (by simpa [slotWF] using hslot) rest h
    rw [hser]
    simp only [List.append_assoc, deserBlock, trap_ser, DRes.bind,
      deserBoolOrPanic_ser false _ hne2]
    simp only [Bool.false_eq_true, if_false, deserIdent_ser _ hidwf _ hne3, DRes.bind, hreg]
    rw [blockPayloadDeser_extractor, hopt]
    simp only [DRes.bind, Option.map_id, id]
    rw [← hinv]
    rfl
  | conveyor inv animDir =>
    obtain ⟨hinv, hslot⟩ := inv1_eq inv hwf
    have hser : serBlock (.conveyor inv animDir) =
        serTrapTag .block ++ (serBool false ++ (serIdent BLOCK_CONVEYOR ++
          (serOption serItem (inv.getItem 0) ++ serDirection animDir))) := rfl
    have hidwf : IdentWF BLOCK_CONVEYOR = true := by decide
    have hreg : getBlockById BLOCK_CONVEYOR =
        some (.conveyor (Inventory.new 1 false) .north) := by decide
    have hne4 : serDirection animDir ++ rest ≠ [] := by
      intro hc
      rcases List.append_eq_nil.mp hc with ⟨_, h2⟩
      exact h h2
    have hne3 : serOption serItem (inv.getItem 0) ++ (serDirection animDir ++ rest) ≠ [] := by
      intro hc
      rcases List.append_eq_nil.mp hc with ⟨_, h2⟩
      exact hne4 h2
    have hne2 : serIdent BLOCK_CONVEYOR ++ (serOption serItem (inv.getItem 0) ++
        (serDirection animDir ++ rest)) ≠ [] := by
      intro hc
      rcases List.append_eq_nil.mp hc with ⟨_, h2⟩
      exact hne3 h2
    have hopt : deserOption deserItem (serOption serItem (inv.getItem 0) ++
        (serDirection animDir ++ rest)) =
        .ok ((inv.getItem 0).map id) (serDirection animDir ++ rest) := by
      refine deserOption_ser deserItem serItem id (inv.getItem 0) ?_ _ hne4
      intro a ha rest h
      rw [ha] at hslot
      simpa using deserItem_ser a (by simpa [slotWF] using hslot) rest h
    rw [hser]
    simp only [List.append_assoc, deserBlock, trap_ser, DRes.bind,
      deserBoolOrPanic_ser false _ hne2]
    simp only [Bool.false_eq_true, if_false, deserIdent_ser _ hidwf _ hne3, DRes.bind, hreg]
    rw [blockPayloadDeser_conveyor, hopt]
    simp only [DRes.bind, Option.map_id, id, deserDirection_ser animDir rest h]
    rw [← hinv]
    rfl
  | splitter inv lastDir cached =>
    obtain ⟨hinv, hslot⟩ := inv1_eq inv hwf
    have hser : serBlock (.splitter inv lastDir cached) =
        serTrapTag .block ++ (serBool false ++ (serIdent BLOCK_CONVEYOR_SPLITTER ++
          serOption serItem (inv.getItem 0))) := rfl
    have hidwf : IdentWF BLOCK_CONVEYOR_SPLITTER = true := by decide
    have hreg : getBlockById BLOCK_CONVEYOR_SPLITTER =
        some (.splitter (Inventory.new 1 false) 0 none) := by decide
    have hne3 : serOption serItem (inv.getItem 0) ++ rest ≠ [] := by
      intro hc
      rcases List.append_eq_nil.mp hc with ⟨_, h2⟩
      exact h h2
    have hne2 : serIdent BLOCK_CONVEYOR_SPLITTER ++
        (serOption serItem (inv.getItem 0) ++ rest) ≠ [] := by
      intro hc
      rcases List.append_eq_nil.mp hc with ⟨_, h2⟩
      exact hne3 h2
    have hopt : deserOption deserItem (serOption serItem (inv.getItem 0) ++ rest) =
        .ok ((inv.getItem 0).map id) rest := by
      refine deserOption_ser deserItem serItem id (inv.getItem 0) ?_ rest h
      intro a ha rest h
      rw [ha] at hslot
      simpa using deserItem_ser a (by simpa [slotWF] using hslot) rest h
    rw [hser]
    simp only [List.append_assoc, deserBlock, trap_ser, DRes.bind,
      deserBoolOrPanic_ser false _ hne2]
    simp only [Bool.false_eq_true, if_false, deserIdent_ser _ hidwf _ hne3, DRes.bind, hreg]
    rw [blockPayloadDeser_splitter, hopt]
    simp only [DRes.bind, Option.map_id, id]
    rw [← hinv]
    rfl
  | tunnel inv animDir ttype => exact absurd hwf (by simp [BlockWF])

/-- One serialized cell round-trips (splitter scratch state reset). -/
theorem deserCell_ser (cell : Direction × BlockState) (hwf : BlockWF cell.2 = true)
    (rest : Bytes) (h : rest ≠ []) :
    deserCell (serCell cell ++ rest) = .ok (cellRT cell) rest := by
  have hne : serBlock cell.2 ++ rest ≠ [] := by
    intro hc
    rcases List.append_eq_nil.mp hc with ⟨_, h2⟩
    exact h h2
  simp only [deserCell, serCell, List.append_assoc, deserDirection_ser cell.1 _ hne, DRes.bind,
    deserBlock_ser cell.2 hwf rest h]
  rfl

end PN2

namespace PN2

/-! ### Chunks on the wire -/

theorem deserChunk_ser (c : Chunk) (hwf : ChunkWF c = true) (rest : Bytes) (h : rest ≠ []) :
    deserChunk (serChunk c ++ rest) = .ok (chunkRT c) rest := by
  simp only [ChunkWF, Bool.and_eq_true, decide_eq_true_eq, List.all_eq_true] at hwf
  obtain ⟨hlen, hx, hy, hcells⟩ := hwf
  have hne5 : (c.blocks.map serCell).flatten ++ rest ≠ [] := by
    intro hc
    rcases List.append_eq_nil.mp hc with ⟨_, h2⟩
    exact h h2
  have hne4 : serNat 8 c.blocks.length ++ ((c.blocks.map serCell).flatten ++ rest) ≠ [] := by
    simp [serNat, natToLE]
  have hne3 : serI32 c.chunkY ++ (serNat 8 c.blocks.length ++
      ((c.blocks.map serCell).flatten ++ rest)) ≠ [] := by
    simp [serI32, natToLE]
  have hcount : deserCount deserCell (BLOCKS_PER_CHUNK_Y * BLOCKS_PER_CHUNK_X)
      ((c.blocks.map serCell).flatten ++ rest) = .ok (c.blocks.map cellRT) rest := by
    have hc : BLOCKS_PER_CHUNK_Y * BLOCKS_PER_CHUNK_X = c.blocks.length := by
      rw [hlen]
      decide
    rw [hc]
    exact deserCount_ser deserCell serCell cellRT c.blocks
      (fun a ha rest h => deserCell_ser a (hcells a ha) rest h) rest h
  simp only [serChunk, List.append_assoc, deserChunk, trap_ser, DRes.bind]
  rw [deserI32_ser c.chunkX _ hne3 hx]
  simp only [DRes.bind]
  rw [deserI32_ser c.chunkY _ hne4 hy]
  simp only [DRes.bind, serNat]
  rw [deserNat_ser_lt 8 c.blocks.length _ hne5 (by rw [hlen]; decide)]
  simp only [DRes.bind, hcount]
  rfl

theorem deserChunkRecords_ser (w : Nat) (sx sy : Int) (cs : List Chunk)
    (hwf : ∀ c ∈ cs, ChunkWF c = true) :
    ∀ (i : Nat) (rest : Bytes), rest ≠ [] →
      deserChunkRecords w sx sy i cs.length ((cs.map serChunk).flatten ++ rest) =
        .ok (((List.range' i cs.length).map (gridCoord w sx sy)).zip (cs.map chunkRT)) rest := by
  induction cs with
  | nil => intro i rest h; rfl
  | cons c t ih =>
    intro i rest h
    have hne : (t.map serChunk).flatten ++ rest ≠ [] := by
      intro hc
      rcases List.append_eq_nil.mp hc with ⟨_, h2⟩
      exact h h2
    simp only [List.map_cons, List.flatten_cons, List.length_cons, List.append_assoc]
    simp only [deserChunkRecords, deserChunk_ser c (hwf c (List.mem_cons_self c t)) _ hne,
      DRes.bind]
    rw [ih (fun b hb => hwf b (List.mem_cons_of_mem c hb)) (i + 1) rest h]
    simp only [DRes.bind, List.range'_succ, List.map_cons, List.zip_cons_cons]

theorem serializeChunkSeq_length (world : World) :
    world.serializeChunkSeq.length = world.chunks.length := by
  simp only [World.serializeChunkSeq, List.length_map]
  have hperm := List.perm_insertionSort (fun a b : Nat × Chunk => a.1 ≤ b.1)
    (world.chunks.map (fun kv => (chunkSortKey world.startx world.w kv.1, kv.2)))
  rw [hperm.length_eq, List.length_map]

/-- Deserializing a successful `World::serialize` output plus a nonempty
tail reads back the header and pairs the emitted chunks, in emission
order, with the row-major grid coordinates. -/
theorem tryDeserialize_serialize (world : World) (bytes : Bytes)
    (hser : world.serialize = some bytes)
    (hsx : i32InRange world.startx = true) (hsy : i32InRange world.starty = true)
    (hw : world.w < 4294967296) (hh : world.h < 4294967296)
    (hwfc : ∀ c ∈ world.serializeChunkSeq, ChunkWF c = true)
    (rest : Bytes) (h : rest ≠ []) :
    World.tryDeserialize (bytes ++ rest) =
      .ok ⟨((List.range (world.w * world.h)).map
              (gridCoord world.w world.startx world.starty)).zip
            (world.serializeChunkSeq.map chunkRT),
           world.w, world.h, world.startx, world.starty⟩ rest := by
  have hlen : world.w * world.h = world.chunks.length := by
    by_contra hc
    simp only [World.serialize, if_neg hc] at hser
    exact Option.noConfusion hser
  have hbytes : bytes = serTrapTag .world ++ serI32 world.startx ++ serI32 world.starty ++
      serNat 4 world.w ++ serNat 4 world.h ++
      (world.serializeChunkSeq.map serChunk).flatten := by
    simp only [World.serialize, if_pos hlen] at hser
    exact (Option.some_injective _ hser).symm
  have hcslen : world.serializeChunkSeq.length = world.w * world.h := by
    rw [serializeChunkSeq_length, hlen]
  have hne5 : (world.serializeChunkSeq.map serChunk).flatten ++ rest ≠ [] := by
    intro hc
    rcases List.append_eq_nil.mp hc with ⟨_, h2⟩
    exact h h2
  have hne4 : serNat 4 world.h ++ ((world.serializeChunkSeq.map serChunk).flatten ++ rest) ≠
      [] := by
    simp [serNat, natToLE]
  have hne3 : serNat 4 world.w ++ (serNat 4 world.h ++
      ((world.serializeChunkSeq.map serChunk).flatten ++ rest)) ≠ [] := by
    simp [serNat, natToLE]
  have hne2 : serI32 world.starty ++ (serNat 4 world.w ++ (serNat 4 world.h ++
      ((world.serializeChunkSeq.map serChunk).flatten ++ rest))) ≠ [] := by
    simp [serI32, natToLE]
  have hrecs : deserChunkRecords world.w world.startx world.starty 0 (world.w * world.h)
      ((world.serializeChunkSeq.map serChunk).flatten ++ rest) =
      .ok (((List.range (world.w * world.h)).map
              (gridCoord world.w world.startx world.starty)).zip
            (world.serializeChunkSeq.map chunkRT)) rest := by
    rw [← hcslen, List.range_eq_range']
    exact deserChunkRecords_ser world.w world.startx world.starty world.serializeChunkSeq
      hwfc 0 rest h
  rw [hbytes]
  simp only [List.append_assoc, World.tryDeserialize, trap_ser, DRes.bind]
  rw [deserI32_ser world.startx _ hne2 hsx]
  simp only [DRes.bind]
  rw [deserI32_ser world.starty _ hne3 hsy]
  simp only [serNat] at hne4
  simp only [DRes.bind, serNat]
  rw [deserNat_ser_lt 4 world.w _ hne4 (by norm_num; omega)]
  simp only [DRes.bind]
  rw [deserNat_ser_lt 4 world.h _ hne5 (by norm_num; omega)]
  simp only [DRes.bind, hrecs]

end PN2

namespace PN2

/-! ### The chunk sort key on `World::new` grids -/

theorem usizeCast_ofNat (n : Nat) (h : n < 18446744073709551616) :
    usizeCast (n : Int) = n := by
  simp only [usizeCast]
  rw [Int.emod_eq_of_lt (by positivity) (by exact_mod_cast h)]
  simp

/-- On the `World::new` grid (`startx = -(w/2)`, `starty = -(h/2)`), when
`h/2 ≤ w/2`, the key the code computes for record `i`'s coordinate is
`i + (w/2 - h/2)*w`: strictly increasing in `i`, hence row-major order. -/
theorem chunkSortKey_grid (w h i : Nat) (hw1 : 1 ≤ w)
    (hwlt : w < 2147483648) (hhlt : h < 2147483648)
    (hd : h / 2 ≤ w / 2) (hi : i < w * h) :
    chunkSortKey (-((w / 2 : Nat) : Int)) w
      (gridCoord w (-((w / 2 : Nat) : Int)) (-((h / 2 : Nat) : Int)) i) =
      i + (w / 2 - h / 2) * w := by
  have hi2 : i < h * w := by rw [Nat.mul_comm h w]; exact hi
  have hq : i / w < h := (Nat.div_lt_iff_lt_mul (by omega)).mpr hi2
  have hr : i % w < w := Nat.mod_lt i (by omega)
  have habs : i32abs (-((w / 2 : Nat) : Int)) = ((w / 2 : Nat) : Int) := by
    simp only [i32abs]
    split <;> omega
  have hc1 : ((i % w : Nat) : Int) + -((w / 2 : Nat) : Int) + ((w / 2 : Nat) : Int) =
      ((i % w : Nat) : Int) := by omega
  have hc2 : ((i / w : Nat) : Int) + -((h / 2 : Nat) : Int) + ((w / 2 : Nat) : Int) =
      ((i / w + (w / 2 - h / 2) : Nat) : Int) := by omega
  have hu1 : usizeCast ((i % w : Nat) : Int) = i % w := usizeCast_ofNat _ (by omega)
  have hu2 : usizeCast ((i / w + (w / 2 - h / 2) : Nat) : Int) = i / w + (w / 2 - h / 2) :=
    usizeCast_ofNat _ (by omega)
  have hmul : (i / w + (w / 2 - h / 2)) * w = (i / w) * w + (w / 2 - h / 2) * w :=
    Nat.add_mul _ _ _
  have hmulbound : (i / w + (w / 2 - h / 2)) * w ≤ 4294967295 * 2147483647 :=
    Nat.mul_le_mul (by omega) (by omega)
  have hdm : w * (i / w) + i % w = i := Nat.div_add_mod i w
  have hcomm : (i / w) * w = w * (i / w) := Nat.mul_comm _ _
  have hinner : (i / w + (w / 2 - h / 2)) * w % 18446744073709551616 =
      (i / w + (w / 2 - h / 2)) * w := Nat.mod_eq_of_lt (by omega)
  have houter : i % w + (i / w + (w / 2 - h / 2)) * w < 18446744073709551616 := by omega
  simp only [chunkSortKey, gridCoord, habs, hc1, hc2, hu1, hu2]
  rw [hinner, Nat.mod_eq_of_lt houter]
  omega

/-- A stable ascending sort of any permutation of a strictly-ascending
keyed list returns that list. -/
theorem insertionSort_eq_by_key (l1 l2 : List (Nat × Chunk))
    (hperm : l1.Perm l2) (hsorted : l2.Pairwise (fun a b => a.1 < b.1)) :
    l1.insertionSort (fun a b => a.1 ≤ b.1) = l2 := by
  haveI : IsTotal (Nat × Chunk) (fun a b => a.1 ≤ b.1) := ⟨fun a b => Nat.le_total a.1 b.1⟩
  haveI : IsTrans (Nat × Chunk) (fun a b => a.1 ≤ b.1) := ⟨fun a b c => Nat.le_trans⟩
  haveI : IsAntisymm (Nat × Chunk) (fun a b => a.1 < b.1) :=
    ⟨fun a b hab hba => absurd (Nat.lt_trans hab hba) (Nat.lt_irrefl _)⟩
  have hps : (l1.insertionSort (fun a b => a.1 ≤ b.1)).Perm l2 :=
    (List.perm_insertionSort _ l1).trans hperm
  have hle : (l1.insertionSort (fun a b => a.1 ≤ b.1)).Sorted (fun a b => a.1 ≤ b.1) :=
    List.sorted_insertionSort _ l1
  have hne2 : l2.Pairwise (fun a b : Nat × Chunk => a.1 ≠ b.1) :=
    hsorted.imp (fun h => Nat.ne_of_lt h)
  have hne1 : (l1.insertionSort (fun a b => a.1 ≤ b.1)).Pairwise
      (fun a b : Nat × Chunk => a.1 ≠ b.1) :=
    (hps.pairwise_iff (fun hab => Ne.symm hab)).mpr hne2
  have hstrict : (l1.insertionSort (fun a b => a.1 ≤ b.1)).Pairwise
      (fun a b : Nat × Chunk => a.1 < b.1) :=
    (hle.and hne1).imp (fun h => Nat.lt_of_le_of_ne h.1 h.2)
  exact List.eq_of_perm_of_sorted hps hstrict hsorted

/-- On any world whose chunk map is a permutation of the `World::new`
grid, with `h/2 ≤ w/2`, the chunks are emitted in row-major order. -/
theorem serializeChunkSeq_grid_aux (world : World) (content : (Int × Int) → Chunk)
    (hw1 : 1 ≤ world.w) (hwlt : world.w < 2147483648) (hhlt : world.h < 2147483648)
    (hd : world.h / 2 ≤ world.w / 2)
    (hsx : world.startx = -((world.w / 2 : Nat) : Int))
    (hsy : world.starty = -((world.h / 2 : Nat) : Int))
    (hperm : world.chunks.Perm
      (canonicalKeyed world.w world.h world.startx world.starty content)) :
    world.serializeChunkSeq =
      (gridCoords world.w world.h world.startx world.starty).map content := by
  have heq : (canonicalKeyed world.w world.h world.startx world.starty content).map
        (fun kv => (chunkSortKey world.startx world.w kv.1, kv.2)) =
      (List.range (world.w * world.h)).map
        (fun i => (i + (world.w / 2 - world.h / 2) * world.w,
          content (gridCoord world.w world.startx world.starty i))) := by
    rw [canonicalKeyed, gridCoords, List.map_map, List.map_map]
    refine List.map_congr_left (fun i hi => ?_)
    have hi2 : i < world.w * world.h := List.mem_range.mp hi
    simp only [Function.comp]
    rw [hsx, hsy, chunkSortKey_grid world.w world.h i hw1 hwlt hhlt hd hi2]
  have hl : (world.chunks.map
        (fun kv => (chunkSortKey world.startx world.w kv.1, kv.2))).Perm
      ((List.range (world.w * world.h)).map
        (fun i => (i + (world.w / 2 - world.h / 2) * world.w,
          content (gridCoord world.w world.startx world.starty i)))) := by
    refine (hperm.map _).trans ?_
    rw [heq]
  have hpair : ((List.range (world.w * world.h)).map
      (fun i => (i + (world.w / 2 - world.h / 2) * world.w,
        content (gridCoord world.w world.startx world.starty i)))).Pairwise
      (fun a b : Nat × Chunk => a.1 < b.1) := by
    refine List.pairwise_map.mpr ((List.pairwise_lt_range _).imp ?_)
    intro i j hij
    dsimp only
    omega
  simp only [World.serializeChunkSeq]
  rw [insertionSort_eq_by_key _ _ hl hpair, gridCoords, List.map_map, List.map_map]
  rfl

end PN2

namespace PN2

/-! ### The trailing-byte panic of an exactly-sized world -/

theorem serCell_ne_nil (cell : Direction × BlockState) : serCell cell ≠ [] := by
  simp [serCell, serDirection, natToLE]

theorem serChunk_ne_nil (c : Chunk) : serChunk c ≠ [] := by
  simp [serChunk, serTrapTag]

/-- An empty cell whose bytes end the buffer: the direction and trap
bytes read, then the `bool::deserialize` of the `is_empty` flag hits the
`try_read_elements` off-by-one and panics. -/
theorem deserCell_empty_exact_panic (d : Direction) :
    deserCell (serCell (d, .empty)) = .panicked := by
  cases d <;> decide

theorem deserCount_trailing_panic (cells : List (Direction × BlockState))
    (hne : cells ≠ []) (hempty : ∀ cell ∈ cells, cell.2 = .empty) :
    deserCount deserCell cells.length ((cells.map serCell).flatten) = .panicked := by
  induction cells with
  | nil => exact absurd rfl hne
  | cons c t ih =>
    cases t with
    | nil =>
      obtain ⟨d, st⟩ := c
      have hst : st = .empty := hempty (d, st) (List.mem_cons_self _ _)
      subst hst
      simp only [List.map_cons, List.map_nil, List.flatten_cons, List.flatten_nil,
        List.append_nil, List.length_cons, List.length_nil]
      simp only [deserCount, deserCell_empty_exact_panic d]
      rfl
    | cons c2 t2 =>
      have hwfc : BlockWF c.2 = true := by
        rw [hempty c (List.mem_cons_self c _)]
        rfl
      have hne2 : serCell c2 ++ (t2.map serCell).flatten ≠ [] := by
        intro hc
        rcases List.append_eq_nil.mp hc with ⟨h1, _⟩
        exact serCell_ne_nil c2 h1
      have hrec := ih (List.cons_ne_nil c2 t2) (fun x hx => hempty x (List.mem_cons_of_mem c hx))
      simp only [List.map_cons, List.flatten_cons, List.length_cons] at hrec ⊢
      show DRes.bind (deserCell (serCell c ++ (serCell c2 ++ (t2.map serCell).flatten)))
          (fun a s1 => DRes.bind (deserCount deserCell (t2.length + 1) s1)
            (fun l s2 => .ok (a :: l) s2)) = .panicked
      rw [deserCell_ser c hwfc _ hne2]
      simp only [DRes.bind, hrec]

/-- A chunk of empty cells serialized at the very end of the buffer
panics on deserialization: its last cell has no byte after it. -/
theorem deserChunk_trailing_panic (c : Chunk)
    (hlen : c.blocks.length = BLOCKS_PER_CHUNK_X * BLOCKS_PER_CHUNK_Y)
    (hx : i32InRange c.chunkX = true) (hy : i32InRange c.chunkY = true)
    (hempty : ∀ cell ∈ c.blocks, cell.2 = .empty) :
    deserChunk (serChunk c) = .panicked := by
  have hne0 : c.blocks ≠ [] := by
    intro hc
    rw [hc] at hlen
    exact absurd hlen (by decide)
  have hflne : (c.blocks.map serCell).flatten ≠ [] := by
    cases hbl : c.blocks with
    | nil => exact absurd hbl hne0
    | cons a t =>
      simp only [List.map_cons, List.flatten_cons]
      intro hc2
      rcases List.append_eq_nil.mp hc2 with ⟨h1, _⟩
      exact serCell_ne_nil a h1
  have hne4 : serNat 8 c.blocks.length ++ (c.blocks.map serCell).flatten ≠ [] := by
    simp [serNat, natToLE]
  have hne3 : serI32 c.chunkY ++ (serNat 8 c.blocks.length ++
      (c.blocks.map serCell).flatten) ≠ [] := by
    simp [serI32, natToLE]
  have hcnt : BLOCKS_PER_CHUNK_Y * BLOCKS_PER_CHUNK_X = c.blocks.length := by
    rw [hlen]
    decide
  simp only [serChunk, List.append_assoc, deserChunk, trap_ser, DRes.bind]
  rw [deserI32_ser c.chunkX _ hne3 hx]
  simp only [DRes.bind]
  rw [deserI32_ser c.chunkY _ hne4 hy]
  simp only [DRes.bind, serNat]
  rw [deserNat_ser_lt 8 c.blocks.length _ hflne (by rw [hlen]; decide)]
  simp only [DRes.bind]
  rw [hcnt, deserCount_trailing_panic c.blocks hne0 hempty]

/-- The record loop panics when the last chunk record panics. -/
theorem deserChunkRecords_panic_after (w : Nat) (sx sy : Int) (cs : List Chunk) (c : Chunk)
    (hwf : ∀ x ∈ cs, ChunkWF x = true)
    (hpan : deserChunk (serChunk c) = .panicked) :
    ∀ i : Nat, deserChunkRecords w sx sy i (cs.length + 1)
      ((cs.map serChunk).flatten ++ serChunk c) = .panicked := by
  induction cs with
  | nil =>
    intro i
    simp only [List.map_nil, List.flatten_nil, List.nil_append, List.length_nil]
    simp only [deserChunkRecords, hpan]
    rfl
  | cons a t ih =>
    intro i
    have hne2 : (t.map serChunk).flatten ++ serChunk c ≠ [] := by
      intro hc
      rcases List.append_eq_nil.mp hc with ⟨_, h2⟩
      exact serChunk_ne_nil c h2
    have hrec := ih (fun x hx => hwf x (List.mem_cons_of_mem a hx)) (i + 1)
    simp only [List.map_cons, List.flatten_cons, List.length_cons, List.append_assoc]
    show DRes.bind (deserChunk (serChunk a ++ ((t.map serChunk).flatten ++ serChunk c)))
        (fun ch s1 => DRes.bind (deserChunkRecords w sx sy (i + 1) (t.length + 1) s1)
          (fun rest s2 => .ok ((gridCoord w sx sy i, ch) :: rest) s2)) = .panicked
    rw [deserChunk_ser a (hwf a (List.mem_cons_self a t)) _ hne2]
    simp only [DRes.bind, hrec]

/-- What a chunk round-trips to keeps every cell's direction, block
identifier and block inventory, and the chunk coordinates. -/
theorem chunkRT_preserves (ch : Chunk) :
    (chunkRT ch).chunkX = ch.chunkX ∧ (chunkRT ch).chunkY = ch.chunkY ∧
    (chunkRT ch).blocks.map (fun cell => (cell.1, cell.2.identifier, blockInventory cell.2)) =
      ch.blocks.map (fun cell => (cell.1, cell.2.identifier, blockInventory cell.2)) := by
  refine ⟨rfl, rfl, ?_⟩
  simp only [chunkRT, List.map_map]
  refine List.map_congr_left (fun cell _ => ?_)
  obtain ⟨d, st⟩ := cell
  cases st <;> rfl

end PN2

namespace PN2

theorem Chunk_default_blocks_empty (cx cy : Int) :
    ∀ cell ∈ (Chunk.default cx cy).blocks, cell.2 = .empty := by
  intro cell hc
  simp only [Chunk.default, List.mem_replicate] at hc
  rw [hc.2]

/-! ## Chunk emission order (C2) -/

/-- C2.  The serialized chunk order is deterministic and derived from the
sort key, but the key the code computes is
`(x + startx.abs()) + (y + STARTX.abs()) * w` — `startx`'s absolute value
on **both** axes, wrapped through `usize` — not the spec's
`(x+|startx|) + (y+|starty|)*w`.  On the `World::new` grid the two agree
(and give row-major order) exactly when `h/2 ≤ w/2`: under that premise
the chunks are emitted in row-major order relative to
`(startx, starty)`, independently of the hash-map iteration order
(`hperm` quantifies over every iteration order). -/
theorem chunk_emission_row_major (world : World) (content : (Int × Int) → Chunk)
    (hw1 : 1 ≤ world.w) (hwlt : world.w < 2147483648) (hhlt : world.h < 2147483648)
    (hd : world.h / 2 ≤ world.w / 2)
    (hsx : world.startx = -((world.w / 2 : Nat) : Int))
    (hsy : world.starty = -((world.h / 2 : Nat) : Int))
    (hperm : world.chunks.Perm
      (canonicalKeyed world.w world.h world.startx world.starty content)) :
    world.serializeChunkSeq =
      (gridCoords world.w world.h world.startx world.starty).map content :=
  serializeChunkSeq_grid_aux world content hw1 hwlt hhlt hd hsx hsy hperm

set_option maxRecDepth 1000000 in
theorem chunk_emission_row_major_witness :
    (1 ≤ (World.new 2 1).w ∧ (World.new 2 1).w < 2147483648 ∧
      (World.new 2 1).h < 2147483648 ∧
      (World.new 2 1).h / 2 ≤ (World.new 2 1).w / 2 ∧
      (World.new 2 1).startx = -(((World.new 2 1).w / 2 : Nat) : Int) ∧
      (World.new 2 1).starty = -(((World.new 2 1).h / 2 : Nat) : Int) ∧
      (World.new 2 1).chunks.Perm (canonicalKeyed (World.new 2 1).w (World.new 2 1).h
        (World.new 2 1).startx (World.new 2 1).starty (fun c => Chunk.default c.1 c.2))) ∧
    (World.new 2 1).serializeChunkSeq =
      (gridCoords (World.new 2 1).w (World.new 2 1).h (World.new 2 1).startx
        (World.new 2 1).starty).map (fun c => Chunk.default c.1 c.2) :=
  ⟨⟨by decide, by decide, by decide, by decide, by decide, by decide, by decide⟩,
   chunk_emission_row_major (World.new 2 1) (fun c => Chunk.default c.1 c.2)
     (by decide) (by decide) (by decide) (by decide) (by decide) (by decide) (by decide)⟩

set_option maxRecDepth 1000000 in
/-- C2 counterexample.  For the 1×2 `World::new` world (`startx = 0`,
`starty = -1`), the chunk at (0, -1) has the smaller spec key
`(x+|startx|) + (y+|starty|)*w` yet is emitted last — the code's key
wraps `(-1 + startx.abs()) as usize` to `2^64 - 1` because it reuses
`startx.abs()` on the y axis.  The emission order is neither the spec's
key order nor row-major. -/
theorem chunk_order_not_spec_key :
    (World.new 1 2).serializeChunkSeq.map (fun c => (c.chunkX, c.chunkY)) = [(0, 0), (0, -1)] ∧
    specChunkKey (World.new 1 2).startx (World.new 1 2).starty (World.new 1 2).w (0, -1) <
      specChunkKey (World.new 1 2).startx (World.new 1 2).starty (World.new 1 2).w (0, 0) := by
  decide

end PN2

namespace PN2

/-! ## World round-trip (C1) -/

/-- C1.  Serialize-then-deserialize round-trip.  For every world whose
chunk map holds the `World::new` grid (in any iteration order) of
well-formed registered blocks, with `w, h ≥ 1` in `i32` range and
`h/2 ≤ w/2` (so the chunk sort key is faithful), and any nonempty byte
tail after the world (the `try_read_elements` off-by-one makes the
exactly-sized input panic): serialization succeeds and deserializing its
output yields the world with the same `w`, `h`, `startx`, `starty` and
the grid coordinates each mapped to the round-trip of their chunk — and
a chunk's round-trip keeps its chunk coordinates and every cell's
direction, block identifier and inventory contents (only a splitter's
unserialized round-robin scratch state resets). -/
theorem world_round_trip (world : World) (content : (Int × Int) → Chunk)
    (hw1 : 1 ≤ world.w) (hh1 : 1 ≤ world.h)
    (hwlt : world.w < 2147483648) (hhlt : world.h < 2147483648)
    (hd : world.h / 2 ≤ world.w / 2)
    (hsx : world.startx = -((world.w / 2 : Nat) : Int))
    (hsy : world.starty = -((world.h / 2 : Nat) : Int))
    (hperm : world.chunks.Perm
      (canonicalKeyed world.w world.h world.startx world.starty content))
    (hwfc : ∀ c ∈ gridCoords world.w world.h world.startx world.starty,
      ChunkWF (content c) = true)
    (rest : Bytes) (hrest : rest ≠ []) :
    (∃ bytes, world.serialize = some bytes ∧
      World.tryDeserialize (bytes ++ rest) =
        .ok ⟨(gridCoords world.w world.h world.startx world.starty).map
               (fun c => (c, chunkRT (content c))),
             world.w, world.h, world.startx, world.starty⟩ rest) ∧
    ∀ ch : Chunk, (chunkRT ch).chunkX = ch.chunkX ∧ (chunkRT ch).chunkY = ch.chunkY ∧
      (chunkRT ch).blocks.map (fun cell => (cell.1, cell.2.identifier, blockInventory cell.2)) =
        ch.blocks.map (fun cell => (cell.1, cell.2.identifier, blockInventory cell.2)) := by
  have hseq := serializeChunkSeq_grid_aux world content hw1 hwlt hhlt hd hsx hsy hperm
  have hlen : world.w * world.h = world.chunks.length := by
    rw [hperm.length_eq]
    simp [canonicalKeyed, gridCoords]
  refine ⟨⟨serTrapTag .world ++ serI32 world.startx ++ serI32 world.starty ++
      serNat 4 world.w ++ serNat 4 world.h ++
      (world.serializeChunkSeq.map serChunk).flatten, ?_, ?_⟩,
    fun ch => chunkRT_preserves ch⟩
  · simp only [World.serialize, if_pos hlen]
  · have hsxr : i32InRange world.startx = true := by
      rw [hsx]
      simp only [i32InRange, Bool.and_eq_true, decide_eq_true_eq]
      constructor <;> omega
    have hsyr : i32InRange world.starty = true := by
      rw [hsy]
      simp only [i32InRange, Bool.and_eq_true, decide_eq_true_eq]
      constructor <;> omega
    have hwfc2 : ∀ c ∈ world.serializeChunkSeq, ChunkWF c = true := by
      intro c hc
      rw [hseq] at hc
      rcases List.mem_map.mp hc with ⟨coord, hcoord, hceq⟩
      rw [← hceq]
      exact hwfc coord hcoord
    have hmain := tryDeserialize_serialize world
      (serTrapTag .world ++ serI32 world.startx ++ serI32 world.starty ++
        serNat 4 world.w ++ serNat 4 world.h ++
        (world.serializeChunkSeq.map serChunk).flatten)
      (by simp only [World.serialize, if_pos hlen]) hsxr hsyr (by omega) (by omega)
      hwfc2 rest hrest
    rw [hmain]
    have hzip : ((List.range (world.w * world.h)).map
          (gridCoord world.w world.startx world.starty)).zip
        (world.serializeChunkSeq.map chunkRT) =
        (gridCoords world.w world.h world.startx world.starty).map
          (fun c => (c, chunkRT (content c))) := by
      rw [hseq]
      simp only [gridCoords, List.map_map]
      rw [List.zip_map']
      rfl
    rw [hzip]

set_option maxRecDepth 1000000 in
theorem world_round_trip_witness :
    (1 ≤ (World.new 1 1).w ∧ 1 ≤ (World.new 1 1).h ∧
      (World.new 1 1).w < 2147483648 ∧ (World.new 1 1).h < 2147483648 ∧
      (World.new 1 1).h / 2 ≤ (World.new 1 1).w / 2 ∧
      (World.new 1 1).startx = -(((World.new 1 1).w / 2 : Nat) : Int) ∧
      (World.new 1 1).starty = -(((World.new 1 1).h / 2 : Nat) : Int) ∧
      (World.new 1 1).chunks.Perm (canonicalKeyed (World.new 1 1).w (World.new 1 1).h
        (World.new 1 1).startx (World.new 1 1).starty (fun c => Chunk.default c.1 c.2)) ∧
      (∀ c ∈ gridCoords (World.new 1 1).w (World.new 1 1).h (World.new 1 1).startx
        (World.new 1 1).starty, ChunkWF (Chunk.default c.1 c.2) = true) ∧
      ([0] : Bytes) ≠ []) ∧
    ((∃ bytes, (World.new 1 1).serialize = some bytes ∧
      World.tryDeserialize (bytes ++ [0]) =
        .ok ⟨(gridCoords (World.new 1 1).w (World.new 1 1).h (World.new 1 1).startx
               (World.new 1 1).starty).map
               (fun c => (c, chunkRT (Chunk.default c.1 c.2))),
             (World.new 1 1).w, (World.new 1 1).h, (World.new 1 1).startx,
             (World.new 1 1).starty⟩ [0]) ∧
    ∀ ch : Chunk, (chunkRT ch).chunkX = ch.chunkX ∧ (chunkRT ch).chunkY = ch.chunkY ∧
      (chunkRT ch).blocks.map (fun cell => (cell.1, cell.2.identifier, blockInventory cell.2)) =
        ch.blocks.map (fun cell => (cell.1, cell.2.identifier, blockInventory cell.2))) :=
  ⟨⟨by decide, by decide, by decide, by decide, by decide, by decide, by decide, by decide,
    by decide, by decide⟩,
   world_round_trip (World.new 1 1) (fun c => Chunk.default c.1 c.2)
     (by decide) (by decide) (by decide) (by decide) (by decide) (by decide) (by decide)
     (by decide) (by decide) [0] (by decide)⟩

end PN2

namespace PN2

set_option maxRecDepth 1000000 in
/-- C1 counterexample.  The 1×2 world `W12` (well within "width/height
≥ 1, registered blocks": one conveyor, rest empty) does not round-trip:
deserializing its serialized bytes plus a spare byte succeeds but swaps
the two chunks' contents (the conveyor placed at block (0,0) is gone
from the read-back world's (0,0)), and deserializing exactly its
serialized bytes panics on the final cell. -/
theorem world_round_trip_counterexample :
    World.tryDeserialize (W12bytes ++ [0]) = .ok W12scrambled [0] ∧
    W12scrambled.getBlockAt 0 0 ≠ W12.getBlockAt 0 0 ∧
    World.tryDeserialize W12bytes = .panicked := by
  have hcond : W12.w * W12.h = W12.chunks.length := by decide
  have hser0 : W12.serialize = some (serTrapTag .world ++ serI32 W12.startx ++
      serI32 W12.starty ++ serNat 4 W12.w ++ serNat 4 W12.h ++
      (W12.serializeChunkSeq.map serChunk).flatten) := by
    simp only [World.serialize, if_pos hcond]
  have hser : W12.serialize = some W12bytes := by
    rw [show W12bytes = W12.serialize.getD [] from rfl, hser0]
    rfl
  have hbytes : W12bytes = serTrapTag .world ++ serI32 W12.startx ++ serI32 W12.starty ++
      serNat 4 W12.w ++ serNat 4 W12.h ++ (W12.serializeChunkSeq.map serChunk).flatten :=
    (Option.some_injective _ (hser0.symm.trans hser)).symm
  refine ⟨?_, by decide, ?_⟩
  · have hmain := tryDeserialize_serialize W12 W12bytes hser (by decide) (by decide)
      (by decide) (by decide) (by decide) [0] (by decide)
    rw [hmain]
    congr 1
  · have hseqq : W12.serializeChunkSeq = [W12chunk00, Chunk.default 0 (-1)] := by decide
    have hpan : deserChunk (serChunk (Chunk.default 0 (-1))) = .panicked :=
      deserChunk_trailing_panic _ (by decide) (by decide) (by decide)
        (Chunk_default_blocks_empty 0 (-1))
    have hrecpan := deserChunkRecords_panic_after W12.w W12.startx W12.starty
      [W12chunk00] (Chunk.default 0 (-1)) (by decide) hpan 0
    simp only [List.map_cons, List.map_nil, List.flatten_cons, List.flatten_nil,
      List.append_nil] at hrecpan
    have hneA : serChunk W12chunk00 ++ serChunk (Chunk.default 0 (-1)) ≠ [] := by
      intro hc
      rcases List.append_eq_nil.mp hc with ⟨h1, _⟩
      exact serChunk_ne_nil _ h1
    have hneB : serNat 4 W12.h ++ (serChunk W12chunk00 ++ serChunk (Chunk.default 0 (-1))) ≠
        [] := by
      simp [serNat, natToLE]
    have hneC : serNat 4 W12.w ++ (serNat 4 W12.h ++
        (serChunk W12chunk00 ++ serChunk (Chunk.default 0 (-1)))) ≠ [] := by
      simp [serNat, natToLE]
    have hneD : serI32 W12.starty ++ (serNat 4 W12.w ++ (serNat 4 W12.h ++
        (serChunk W12chunk00 ++ serChunk (Chunk.default 0 (-1))))) ≠ [] := by
      simp [serI32, natToLE]
    rw [hbytes, hseqq]
    simp only [List.map_cons, List.map_nil, List.flatten_cons, List.flatten_nil,
      List.append_nil]
    simp only [List.append_assoc, World.tryDeserialize, trap_ser, DRes.bind]
    rw [deserI32_ser W12.startx _ hneD (by decide)]
    simp only [DRes.bind]
    rw [deserI32_ser W12.starty _ hneC (by decide)]
    simp only [serNat] at hneB
    simp only [DRes.bind, serNat]
    rw [deserNat_ser_lt 4 W12.w _ hneB (by decide)]
    simp only [DRes.bind]
    rw [deserNat_ser_lt 4 W12.h _ hneA (by decide)]
    simp only [DRes.bind]
    have hcnt2 : W12.w * W12.h = ([W12chunk00] : List Chunk).length + 1 := by decide
    rw [hcnt2, hrecpan]

end PN2
